import Mathlib

/-!
Verification of the Kiro IDE bridge server embedded in
`src/services/proxyPackageService.ts`: the binary event-stream codec
(CRC32 + length-prefixed framing), the request translator
(`kiroToAnthropic`, `mapModelId`), the model-listing fallback, the SSE
streaming handler of `/generateAssistantResponse`, and the extension
patcher (`isKiroPatched` / `patchKiro` / `restoreKiro`).

JavaScript values flowing through the server are modelled by a small
JSON syntax tree `Json`; JavaScript numbers are carried as their decimal
source lexeme (the only operations performed on them are serialization
and truthiness, both determined by the lexeme). Byte buffers are
`List Nat` with entries below 256.
-/

/-- JSON value; numbers are kept as their decimal lexeme. -/
inductive Json where
  | null : Json
  | bool : Bool → Json
  | num : String → Json
  | str : String → Json
  | arr : List Json → Json
  | obj : List (String × Json) → Json

/-- Object property lookup with the last duplicate key winning
(the behaviour of `JSON.parse` for duplicate keys). -/
def jsLookup (fs : List (String × Json)) (key : String) : Option Json :=
  match fs with
  | [] => none
  | (k, v) :: rest =>
    match jsLookup rest key with
    | some r => some r
    | none => if k = key then some v else none

/-- Property read `j.k`: only objects have own data properties here;
on every other value the read yields `undefined` (`none`). -/
def jsGet (j : Json) (key : String) : Option Json :=
  match j with
  | Json.obj fs => jsLookup fs key
  | _ => none

/-- Optional-chain property read `a?.k` where `a` may be `undefined`. -/
def jsGetOpt (a : Option Json) (key : String) : Option Json :=
  match a with
  | some j => jsGet j key
  | none => none

/-- Truthiness of a JSON number lexeme: falsy iff its value is 0,
i.e. iff no nonzero digit occurs before the exponent marker. -/
def jsNumTruthy (lit : String) : Bool :=
  (lit.toList.takeWhile (fun c => ¬ (c = 'e' ∨ c = 'E'))).any
    (fun c => '1' ≤ c ∧ c ≤ '9')

/-- JavaScript truthiness of a JSON value. -/
def jsTruthy (j : Json) : Bool :=
  match j with
  | Json.null => false
  | Json.bool b => b
  | Json.num lit => jsNumTruthy lit
  | Json.str s => s ≠ ""
  | Json.arr _ => true
  | Json.obj _ => true

/-- Truthiness of a possibly-`undefined` value. -/
def jsTruthyOpt (a : Option Json) : Bool :=
  match a with
  | some j => jsTruthy j
  | none => false

/-- Hex digit for values below 16. -/
def hexDigit (n : Nat) : Char :=
  if n < 10 then Char.ofNat (48 + n) else Char.ofNat (87 + n)

/-- `JSON.stringify` escaping of one string character. -/
def jsonEscapeChar (c : Char) : List Char :=
  if c = '"' then ['\\', '"']
  else if c = '\\' then ['\\', '\\']
  else if c = Char.ofNat 8 then ['\\', 'b']
  else if c = Char.ofNat 9 then ['\\', 't']
  else if c = Char.ofNat 10 then ['\\', 'n']
  else if c = Char.ofNat 12 then ['\\', 'f']
  else if c = Char.ofNat 13 then ['\\', 'r']
  else if c.toNat < 32 then
    ['\\', 'u', '0', '0', hexDigit (c.toNat / 16), hexDigit (c.toNat % 16)]
  else [c]

/-- `JSON.stringify` of a string (with surrounding quotes). -/
def jsonQuote (s : String) : String :=
  String.mk ('"' :: (s.toList.map jsonEscapeChar).flatten ++ ['"'])

mutual

/-- `JSON.stringify` of a JSON value. -/
def stringify : Json → String
  | Json.null => "null"
  | Json.bool true => "true"
  | Json.bool false => "false"
  | Json.num lit => lit
  | Json.str s => jsonQuote s
  | Json.arr es => "[" ++ stringifyElems es ++ "]"
  | Json.obj fs => "\x7b" ++ stringifyFields fs ++ "\x7d"

/-- Comma-separated serialization of array elements. -/
def stringifyElems : List Json → String
  | [] => ""
  | [e] => stringify e
  | e :: es => stringify e ++ "," ++ stringifyElems es

/-- Comma-separated serialization of object members, in insertion order. -/
def stringifyFields : List (String × Json) → String
  | [] => ""
  | [(k, v)] => jsonQuote k ++ ":" ++ stringify v
  | (k, v) :: fs => jsonQuote k ++ ":" ++ stringify v ++ "," ++ stringifyFields fs

end

/-- UTF-8 bytes of one unicode scalar value. -/
def utf8Char (c : Char) : List Nat :=
  let n := c.toNat
  if n < 128 then [n]
  else if n < 2048 then [192 + n / 64, 128 + n % 64]
  else if n < 65536 then [224 + n / 4096, 128 + n / 64 % 64, 128 + n % 64]
  else [240 + n / 262144, 128 + n / 4096 % 64, 128 + n / 64 % 64, 128 + n % 64]

/-- UTF-8 byte sequence of a string (`Buffer.from(s, "utf8")`). -/
def utf8 (s : String) : List Nat :=
  (s.toList.map utf8Char).flatten

/-! ### CRC32 (source lines 240-255)

The table build loop runs, for each index, eight iterations of
`crc = (crc & 1) ? (0xEDB88320 ^ (crc >>> 1)) : (crc >>> 1)`; `crcStep`
is that iteration and `CRC32_TABLE i` the table entry. The byte loop of
`crc32` is `crc32Update`. -/

/-- One shift-xor iteration of the CRC-32 bit loop with the reflected
polynomial 0xEDB88320. -/
def crcStep (c : Nat) : Nat :=
  if c &&& 1 = 1 then 0xEDB88320 ^^^ (c >>> 1) else c >>> 1

/-- Eight iterations of `crcStep`. -/
def crcStep8 (c : Nat) : Nat :=
  crcStep (crcStep (crcStep (crcStep (crcStep (crcStep (crcStep (crcStep c)))))))

/-- `CRC32_TABLE[i]`: the table entry produced by the build loop. -/
def CRC32_TABLE (i : Nat) : Nat := crcStep8 i

/-- One byte of the table-driven loop:
`crc = CRC32_TABLE[(crc ^ data[i]) & 0xFF] ^ (crc >>> 8)`. -/
def crc32Update (crc b : Nat) : Nat :=
  CRC32_TABLE ((crc ^^^ b) &&& 0xFF) ^^^ (crc >>> 8)

/-- `crc32(data)`: table-driven CRC-32 with initial register 0xFFFFFFFF
and final XOR 0xFFFFFFFF. -/
def crc32 (data : List Nat) : Nat :=
  (data.foldl crc32Update 0xFFFFFFFF) ^^^ 0xFFFFFFFF

/-- Reference bitwise CRC-32 byte step (spec wording): XOR the byte into
the register, then run the 8-iteration bit loop. -/
def crcRefUpdate (crc b : Nat) : Nat := crcStep8 (crc ^^^ b)

/-- Reference bitwise CRC-32 (the zlib/PNG variant as described by the
spec): reflected polynomial 0xEDB88320, initial register 0xFFFFFFFF,
final XOR 0xFFFFFFFF, one 8-iteration bit loop per input byte. -/
def crc32Ref (data : List Nat) : Nat :=
  (data.foldl crcRefUpdate 0xFFFFFFFF) ^^^ 0xFFFFFFFF

/-! ### Event-stream encoder (source lines 257-303) -/

/-- Big-endian 2-byte encoding (`writeUInt16BE`, in-range values). -/
def u16be (n : Nat) : List Nat := [n / 256 % 256, n % 256]

/-- Big-endian 4-byte encoding (`writeUInt32BE`, in-range values). -/
def u32be (n : Nat) : List Nat :=
  [n / 16777216 % 256, n / 65536 % 256, n / 256 % 256, n % 256]

/-- Big-endian read of the first 4 bytes of a buffer. -/
def readU32BE (bs : List Nat) : Nat :=
  bs.getD 0 0 * 16777216 + bs.getD 1 0 * 65536 + bs.getD 2 0 * 256 + bs.getD 3 0

/-- `encodeStringHeader(name, value)`:
`[1-byte name length][name][type tag 7][2-byte BE value length][value]`. -/
def encodeStringHeader (name value : String) : List Nat :=
  let nameBuffer := utf8 name
  let valueBuffer := utf8 value
  [nameBuffer.length] ++ nameBuffer ++ [7] ++ u16be valueBuffer.length ++ valueBuffer

/-- The three fixed headers of every encoded message. -/
def headersBuffer (eventType : String) : List Nat :=
  encodeStringHeader ":event-type" eventType ++
  encodeStringHeader ":content-type" "application/json" ++
  encodeStringHeader ":message-type" "event"

/-- `encodeEventStreamMessage(eventType, payload)`: 12-byte prelude
(total length, header length, CRC32 of the first 8 bytes), headers,
UTF-8 JSON payload, trailing CRC32 of everything before it. -/
def encodeEventStreamMessage (eventType : String) (payload : Json) : List Nat :=
  let hs := headersBuffer eventType
  let payloadBuffer := utf8 (stringify payload)
  let totalLength := 12 + hs.length + payloadBuffer.length + 4
  let prelude := u32be totalLength ++ u32be hs.length
  let body := prelude ++ u32be (crc32 prelude) ++ hs ++ payloadBuffer
  body ++ u32be (crc32 body)

/-- `createAssistantResponseEvent(content)`. -/
def createAssistantResponseEvent (content : Json) : List Nat :=
  encodeEventStreamMessage "assistantResponseEvent" (Json.obj [("content", content)])

/-- `createMeteringEvent(usage)`. -/
def createMeteringEvent (usage : Json) : List Nat :=
  encodeEventStreamMessage "meteringEvent"
    (Json.obj [("unit", Json.str "credit"), ("unitPlural", Json.str "credits"),
               ("usage", usage)])

/-- `createContextUsageEvent(percentage)`. -/
def createContextUsageEvent (percentage : Json) : List Nat :=
  encodeEventStreamMessage "contextUsageEvent"
    (Json.obj [("contextUsagePercentage", percentage)])

/-! ### C3: the table-driven CRC32 equals the bitwise reference -/

/-- Right shift by one distributes over XOR. -/
lemma shiftRight_one_xor (x y : Nat) : (x ^^^ y) >>> 1 = x >>> 1 ^^^ y >>> 1 := by
  apply Nat.eq_of_testBit_eq
  intro i
  simp [Nat.testBit_shiftRight, Nat.testBit_xor]

/-- XOR on naturals is left-commutative. -/
lemma nat_xor_left_comm (a b c : Nat) : a ^^^ (b ^^^ c) = b ^^^ (a ^^^ c) := by
  rw [← Nat.xor_assoc, Nat.xor_comm a b, Nat.xor_assoc]

/-- The CRC bit step is linear over XOR. -/
lemma crcStep_xor (x y : Nat) : crcStep (x ^^^ y) = crcStep x ^^^ crcStep y := by
  have hx1 : x &&& 1 = x % 2 := Nat.and_one_is_mod x
  have hy1 : y &&& 1 = y % 2 := Nat.and_one_is_mod y
  have hxy1 : (x ^^^ y) &&& 1 = (x % 2) ^^^ (y % 2) := by
    rw [Nat.and_xor_distrib_right, hx1, hy1]
  unfold crcStep
  rcases Nat.mod_two_eq_zero_or_one x with hx | hx <;>
    rcases Nat.mod_two_eq_zero_or_one y with hy | hy
  · rw [if_neg (by simp [hxy1, hx, hy]), if_neg (by simp [hx1, hx]),
      if_neg (by simp [hy1, hy]), shiftRight_one_xor]
  · rw [if_pos (by simp [hxy1, hx, hy]), if_neg (by simp [hx1, hx]),
      if_pos (by simp [hy1, hy]), shiftRight_one_xor]
    simp [Nat.xor_assoc, Nat.xor_comm, nat_xor_left_comm]
  · rw [if_pos (by simp [hxy1, hx, hy]), if_pos (by simp [hx1, hx]),
      if_neg (by simp [hy1, hy]), shiftRight_one_xor]
    simp [Nat.xor_assoc, Nat.xor_comm, nat_xor_left_comm]
  · rw [if_neg (by simp [hxy1, hx, hy]), if_pos (by simp [hx1, hx]),
      if_pos (by simp [hy1, hy]), shiftRight_one_xor]
    simp [Nat.xor_assoc, Nat.xor_comm, nat_xor_left_comm, Nat.xor_self,
      Nat.xor_zero, Nat.zero_xor]

/-- The CRC bit step halves an even argument. -/
lemma crcStep_two_mul (k : Nat) : crcStep (2 * k) = k := by
  unfold crcStep
  rw [Nat.and_one_is_mod, if_neg (by omega), Nat.shiftRight_eq_div_pow]
  omega

/-- Eight CRC bit steps are linear over XOR. -/
lemma crcStep8_xor (x y : Nat) : crcStep8 (x ^^^ y) = crcStep8 x ^^^ crcStep8 y := by
  simp [crcStep8, crcStep_xor]

/-- Eight CRC bit steps undo a left shift by one byte. -/
lemma crcStep8_shiftLeft (d : Nat) : crcStep8 (d <<< 8) = d := by
  rw [Nat.shiftLeft_eq, show (2 : Nat) ^ 8 = 256 from rfl]
  unfold crcStep8
  rw [show d * 256 = 2 * (d * 128) by ring, crcStep_two_mul,
      show d * 128 = 2 * (d * 64) by ring, crcStep_two_mul,
      show d * 64 = 2 * (d * 32) by ring, crcStep_two_mul,
      show d * 32 = 2 * (d * 16) by ring, crcStep_two_mul,
      show d * 16 = 2 * (d * 8) by ring, crcStep_two_mul,
      show d * 8 = 2 * (d * 4) by ring, crcStep_two_mul,
      show d * 4 = 2 * (d * 2) by ring, crcStep_two_mul,
      show d * 2 = 2 * d by ring, crcStep_two_mul]

/-- Reduction of `testBit` through `% 256`. -/
lemma testBit_mod_256 (c i : Nat) :
    (c % 256).testBit i = (decide (i < 8) && c.testBit i) := by
  rw [show (256 : Nat) = 2 ^ 8 from rfl]
  exact Nat.testBit_mod_two_pow c 8 i

/-- Every natural splits as low byte XOR shifted-back high part. -/
lemma byte_decompose (c : Nat) : c = (c % 256) ^^^ ((c >>> 8) <<< 8) := by
  apply Nat.eq_of_testBit_eq
  intro i
  rcases Nat.lt_or_ge i 8 with h | h
  · have h8 : ¬ 8 ≤ i := Nat.not_le.mpr h
    simp [Nat.testBit_xor, testBit_mod_256, Nat.testBit_shiftLeft, h, h8]
  · have h8 : ¬ i < 8 := Nat.not_lt.mpr h
    simp [Nat.testBit_xor, testBit_mod_256, Nat.testBit_shiftLeft,
      Nat.testBit_shiftRight, h, h8, Nat.add_sub_cancel' h]

/-- Per byte, the table-driven update agrees with the reference update. -/
lemma crc32Update_eq_ref (crc b : Nat) (hb : b < 256) :
    crc32Update crc b = crcRefUpdate crc b := by
  unfold crc32Update crcRefUpdate CRC32_TABLE
  have h1 : (crc ^^^ b) &&& 0xFF = (crc ^^^ b) % 256 := by
    have h := Nat.and_pow_two_sub_one_eq_mod (crc ^^^ b) 8
    norm_num at h
    exact h
  have h2 : (crc ^^^ b) >>> 8 = crc >>> 8 := by
    apply Nat.eq_of_testBit_eq
    intro i
    have hbb : Nat.testBit b (8 + i) = false :=
      Nat.testBit_lt_two_pow (lt_of_lt_of_le hb (by
        calc (256 : Nat) = 2 ^ 8 := rfl
        _ ≤ 2 ^ (8 + i) := Nat.pow_le_pow_right (by omega) (by omega)))
    simp [Nat.testBit_shiftRight, Nat.testBit_xor, hbb]
  conv_rhs => rw [byte_decompose (crc ^^^ b)]
  rw [crcStep8_xor, crcStep8_shiftLeft, h1, h2]

/-- The two byte loops agree on byte data from any start register. -/
lemma foldl_crc_eq (data : List Nat) (hdata : ∀ b ∈ data, b < 256) :
    ∀ crc, data.foldl crc32Update crc = data.foldl crcRefUpdate crc := by
  induction data with
  | nil => intro crc; rfl
  | cons b bs ih =>
    intro crc
    simp only [List.foldl_cons]
    rw [crc32Update_eq_ref crc b (hdata b (by simp))]
    exact ih (fun x hx => hdata x (by simp [hx])) _

/-- C3: on every byte sequence, the table-driven `crc32` of the codec
computes the same value as the standard bitwise reference definition of
CRC-32 (reflected polynomial 0xEDB88320, initial register 0xFFFFFFFF,
final XOR 0xFFFFFFFF — the zlib/PNG variant). -/
theorem crc32_eq_bitwise_reference (data : List Nat)
    (hdata : ∀ b ∈ data, b < 256) : crc32 data = crc32Ref data := by
  unfold crc32 crc32Ref
  rw [foldl_crc_eq data hdata]

/-- Witness for C3 at a concrete byte sequence. -/
theorem crc32_eq_bitwise_reference_witness :
    (∀ b ∈ [0, 1, 72, 127, 255], b < 256) ∧
      crc32 [0, 1, 72, 127, 255] = crc32Ref [0, 1, 72, 127, 255] :=
  ⟨by decide, crc32_eq_bitwise_reference [0, 1, 72, 127, 255] (by decide)⟩

/-! ### C1: self-consistency of encoded event-stream messages -/

/-- Reading back a 4-byte big-endian encoding of an in-range value. -/
lemma readU32BE_u32be (n : Nat) (h : n < 4294967296) : readU32BE (u32be n) = n := by
  simp [readU32BE, u32be, List.getD]
  omega

/-- Dropping the first 8 bytes of a buffer whose first two blocks have
4 bytes each. -/
lemma drop8_append (a b rest : List Nat) (ha : a.length = 4) (hb : b.length = 4) :
    (a ++ (b ++ rest)).drop 8 = rest := by
  rw [show 8 = a.length + 4 by omega, List.drop_append, show 4 = b.length by omega,
    List.drop_left]

/-- Taking the first 8 bytes of a buffer whose first two blocks have
4 bytes each. -/
lemma take8_append (a b rest : List Nat) (ha : a.length = 4) (hb : b.length = 4) :
    (a ++ (b ++ rest)).take 8 = a ++ b := by
  rw [show 8 = a.length + 4 by omega, List.take_append, show 4 = b.length by omega,
    List.take_left]

/-- Taking the first 4 bytes of a buffer whose first block has 4 bytes. -/
lemma take4_append (a rest : List Nat) (ha : a.length = 4) :
    (a ++ rest).take 4 = a := by
  rw [show 4 = a.length by omega, List.take_left]

/-- Self-consistency of the generic frame layout
`[len][hlen][crc(prelude)] ++ headers ++ payload ++ [crc(body)]`. -/
lemma frame_selfConsistent (hs pb pre body msg : List Nat)
    (hpre : pre = u32be (12 + hs.length + pb.length + 4) ++ u32be hs.length)
    (hbody : body = pre ++ u32be (crc32 pre) ++ hs ++ pb)
    (hmsg : msg = body ++ u32be (crc32 body))
    (hT : 12 + hs.length + pb.length + 4 < 4294967296) :
    readU32BE (msg.take 4) = msg.length ∧
    msg.length = 12 + hs.length + pb.length + 4 ∧
    (msg.drop 8).take 4 = u32be (crc32 (msg.take 8)) ∧
    msg.drop (msg.length - 4) = u32be (crc32 (msg.take (msg.length - 4))) := by
  have l4 : ∀ n, (u32be n).length = 4 := fun n => rfl
  have hlenpre : pre.length = 8 := by rw [hpre]; simp [l4]
  have hlenbody : body.length = 12 + hs.length + pb.length := by
    rw [hbody]; simp [List.length_append, l4, hlenpre]; omega
  have hlenmsg : msg.length = 12 + hs.length + pb.length + 4 := by
    rw [hmsg]; simp [List.length_append, l4, hlenbody]
  have hassoc : msg =
      u32be (12 + hs.length + pb.length + 4) ++
        (u32be hs.length ++ (u32be (crc32 pre) ++ (hs ++ (pb ++ u32be (crc32 body))))) := by
    rw [hmsg, hbody, hpre]; simp [List.append_assoc]
  refine ⟨?_, hlenmsg, ?_, ?_⟩
  · rw [hassoc, take4_append _ _ (l4 _), readU32BE_u32be _ hT, ← hassoc, hlenmsg]
  · rw [hassoc, drop8_append _ _ _ (l4 _) (l4 _), take8_append _ _ _ (l4 _) (l4 _),
      take4_append _ _ (l4 _), ← hpre]
  · rw [hlenmsg, hmsg, show 12 + hs.length + pb.length + 4 - 4 = body.length by omega,
      List.drop_left, List.take_left]

/-- C1: every message produced by `encodeEventStreamMessage` is
self-consistent: its first 4 bytes read back (big-endian) as the actual
total byte length, that length is `12 + headers + payload + 4`, bytes
9-12 are the CRC32 of the first 8 bytes, and the final 4 bytes are the
CRC32 of all bytes preceding them. (Sizes are bounded so the 32-bit
length field is in range, as `Buffer.writeUInt32BE` requires.) -/
theorem encodeEventStreamMessage_selfConsistent (eventType : String) (payload : Json)
    (hsize : (utf8 eventType).length + (utf8 (stringify payload)).length ≤ 2 ^ 31) :
    readU32BE ((encodeEventStreamMessage eventType payload).take 4) =
      (encodeEventStreamMessage eventType payload).length ∧
    (encodeEventStreamMessage eventType payload).length =
      12 + (headersBuffer eventType).length + (utf8 (stringify payload)).length + 4 ∧
    ((encodeEventStreamMessage eventType payload).drop 8).take 4 =
      u32be (crc32 ((encodeEventStreamMessage eventType payload).take 8)) ∧
    (encodeEventStreamMessage eventType payload).drop
        ((encodeEventStreamMessage eventType payload).length - 4) =
      u32be (crc32 ((encodeEventStreamMessage eventType payload).take
        ((encodeEventStreamMessage eventType payload).length - 4))) := by
  have e1 : (utf8 ":event-type").length = 11 := by decide
  have e2 : (utf8 ":content-type").length = 13 := by decide
  have e3 : (utf8 "application/json").length = 16 := by decide
  have e4 : (utf8 ":message-type").length = 13 := by decide
  have e5 : (utf8 "event").length = 5 := by decide
  have hHs : (headersBuffer eventType).length = 70 + (utf8 eventType).length := by
    simp [headersBuffer, encodeStringHeader, u16be, List.length_append, e1, e2, e3, e4, e5]
    omega
  have hT : 12 + (headersBuffer eventType).length +
      (utf8 (stringify payload)).length + 4 < 4294967296 := by
    rw [hHs]
    have : (2 : Nat) ^ 31 = 2147483648 := by norm_num
    omega
  exact frame_selfConsistent (headersBuffer eventType) (utf8 (stringify payload))
    _ _ _ rfl rfl rfl hT

/-- Witness for C1 at the concrete assistant-response event for "Hi". -/
theorem encodeEventStreamMessage_selfConsistent_witness :
    ((utf8 "assistantResponseEvent").length +
      (utf8 (stringify (Json.obj [("content", Json.str "Hi")]))).length ≤ 2 ^ 31) ∧
    (readU32BE ((encodeEventStreamMessage "assistantResponseEvent"
        (Json.obj [("content", Json.str "Hi")])).take 4) =
      (encodeEventStreamMessage "assistantResponseEvent"
        (Json.obj [("content", Json.str "Hi")])).length ∧
    (encodeEventStreamMessage "assistantResponseEvent"
        (Json.obj [("content", Json.str "Hi")])).length =
      12 + (headersBuffer "assistantResponseEvent").length +
        (utf8 (stringify (Json.obj [("content", Json.str "Hi")]))).length + 4 ∧
    ((encodeEventStreamMessage "assistantResponseEvent"
        (Json.obj [("content", Json.str "Hi")])).drop 8).take 4 =
      u32be (crc32 ((encodeEventStreamMessage "assistantResponseEvent"
        (Json.obj [("content", Json.str "Hi")])).take 8)) ∧
    (encodeEventStreamMessage "assistantResponseEvent"
        (Json.obj [("content", Json.str "Hi")])).drop
        ((encodeEventStreamMessage "assistantResponseEvent"
          (Json.obj [("content", Json.str "Hi")])).length - 4) =
      u32be (crc32 ((encodeEventStreamMessage "assistantResponseEvent"
        (Json.obj [("content", Json.str "Hi")])).take
        ((encodeEventStreamMessage "assistantResponseEvent"
          (Json.obj [("content", Json.str "Hi")])).length - 4)))) :=
  ⟨by decide, encodeEventStreamMessage_selfConsistent "assistantResponseEvent"
    (Json.obj [("content", Json.str "Hi")]) (by decide)⟩

/-! ### Protocol translator (source lines 305-325) -/

mutual

/-- JavaScript string coercion `String(v)`, as applied to property keys. -/
def jsPropKey : Json → String
  | Json.null => "null"
  | Json.bool true => "true"
  | Json.bool false => "false"
  | Json.num lit => lit
  | Json.str s => s
  | Json.arr es => jsPropKeyElems es
  | Json.obj _ => "[object Object]"

/-- `Array.prototype.toString`: elements joined with commas, null
elements rendered empty. -/
def jsPropKeyElems : List Json → String
  | [] => ""
  | [Json.null] => ""
  | [e] => jsPropKey e
  | Json.null :: es => "," ++ jsPropKeyElems es
  | e :: es => jsPropKey e ++ "," ++ jsPropKeyElems es

end

/-- The static model alias table `MODEL_MAP` (the own properties of the
object literal). -/
def MODEL_MAP : List (String × String) :=
  [("claude-haiku", "gemini-3-flash"), ("simple-task", "gemini-3-flash")]

/-- Own-property lookup in the alias table. -/
def lookupModel : List (String × String) → String → Option String
  | [], _ => none
  | (k, v) :: rest, key => if k = key then some v else lookupModel rest key

/-- JavaScript `a || b` where `a` may be `undefined`. -/
def jsOr (a : Option Json) (b : Json) : Json :=
  match a with
  | some v => if jsTruthy v then v else b
  | none => b

/-- The property names an object literal inherits from
`Object.prototype`; reading any of them yields a truthy value (a
function, or the prototype object itself for `__proto__`). -/
def OBJECT_PROTO_MEMBERS : List String :=
  ["constructor", "hasOwnProperty", "isPrototypeOf", "propertyIsEnumerable",
   "toLocaleString", "toString", "valueOf", "__defineGetter__",
   "__defineSetter__", "__lookupGetter__", "__lookupSetter__", "__proto__"]

/-- Result of the property read `MODEL_MAP[key]`: an own property of the
object literal, or a member inherited from `Object.prototype` (kept
opaque under its property name). -/
inductive ModelMapHit where
  | own (v : String) : ModelMapHit
  | proto (name : String) : ModelMapHit

/-- The full property read `MODEL_MAP[key]`: own properties first, then
the `Object.prototype` chain. -/
def modelMapLookup (key : String) : Option ModelMapHit :=
  match lookupModel MODEL_MAP key with
  | some v => some (ModelMapHit.own v)
  | none =>
    if key ∈ OBJECT_PROTO_MEMBERS then some (ModelMapHit.proto key) else none

/-- A JavaScript value as produced by `mapModelId`: a JSON value, or a
(truthy) member inherited from `Object.prototype`, opaque under its
property name. -/
inductive JsVal where
  | json (j : Json) : JsVal
  | protoMember (name : String) : JsVal

/-- `id || "claude-sonnet-4-5-thinking"` for a possibly-`undefined`
`id`. -/
def jsOrDefaultModel (id : Option Json) : JsVal :=
  match id with
  | some j =>
    if jsTruthy j then JsVal.json j
    else JsVal.json (Json.str "claude-sonnet-4-5-thinking")
  | none => JsVal.json (Json.str "claude-sonnet-4-5-thinking")

/-- `mapModelId(id) = MODEL_MAP[id] || id || "claude-sonnet-4-5-thinking"`;
`id` is the raw (possibly `undefined`) `modelId` value, and the bracket
lookup walks the object literal's own properties and then its
`Object.prototype` chain, whose members are all truthy. -/
def mapModelId (id : Option Json) : JsVal :=
  match id.bind fun j => modelMapLookup (jsPropKey j) with
  | some (ModelMapHit.own v) =>
    if v ≠ "" then JsVal.json (Json.str v) else jsOrDefaultModel id
  | some (ModelMapHit.proto name) => JsVal.protoMember name
  | none => jsOrDefaultModel id

/-- One message of the translated Chat Request; `content` is `none` when
the source pushed a JavaScript `undefined` content. -/
structure ChatMessage where
  role : String
  content : Option Json

/-- The translated Chat Request shape. -/
structure ChatRequest where
  model : JsVal
  messages : List ChatMessage
  max_tokens : Nat
  stream : Bool

/-- A single text block `[{type: "text", text: c}]`. -/
def textBlock (c : Json) : Json :=
  Json.arr [Json.obj [("type", Json.str "text"), ("text", c)]]

/-- Assistant half of the history-loop body: pushes an assistant message
when `msg.assistantResponseMessage?.content` is truthy. (Reached only
after the `msg.userInputMessage` access succeeded, so `msg` is not null
here and the unguarded access cannot throw.) -/
def pushAssistant (acc : List ChatMessage) (msg : Json) : List ChatMessage :=
  match jsGetOpt (jsGet msg "assistantResponseMessage") "content" with
  | some c => if jsTruthy c then acc ++ [⟨"assistant", some (textBlock c)⟩] else acc
  | none => acc

/-- Non-optional member access `j.k`: JavaScript throws a TypeError
(`none`) when the receiver is null; otherwise the read yields the
property value or `undefined` (`some _`). Parsed JSON cannot hold
`undefined`, so null is the only throwing receiver. -/
def jsGetMember (j : Json) (key : String) : Option (Option Json) :=
  match j with
  | Json.null => none
  | _ => some (jsGet j key)

/-- Loop body of the history walk in `kiroToAnthropic`:
`msg.userInputMessage` is an unguarded member access, so a null entry
throws a TypeError (`none`); a truthy `userInputMessage` pushes a user
message with its raw `content`, otherwise a truthy
`assistantResponseMessage?.content` pushes a text-block assistant
message. -/
def pushHistoryEntry (acc : List ChatMessage) (msg : Json) :
    Option (List ChatMessage) :=
  match jsGetMember msg "userInputMessage" with
  | none => none
  | some (some u) =>
    if jsTruthy u then some (acc ++ [⟨"user", jsGet u "content"⟩])
    else some (pushAssistant acc msg)
  | some none => some (pushAssistant acc msg)

/-- The `for...of` history loop, propagating a thrown TypeError. -/
def pushHistoryEntries : List Json → List ChatMessage → Option (List ChatMessage)
  | [], acc => some acc
  | msg :: rest, acc =>
    match pushHistoryEntry acc msg with
    | none => none
    | some acc2 => pushHistoryEntries rest acc2

/-- `for...of` iterability: arrays iterate their elements and strings
their characters (single-character strings); any other truthy value
throws a TypeError (`none`). -/
def iterElems : Json → Option (List Json)
  | Json.arr es => some es
  | Json.str s => some (s.toList.map fun c => Json.str (String.mk [c]))
  | _ => none

/-- `kiroToAnthropic(req)`; `none` models a thrown TypeError (caught by
the endpoint handler, which then responds 500). -/
def kiroToAnthropic (req : Json) : Option ChatRequest :=
  let cs := jsOr (jsGet req "conversationState") (Json.obj [])
  let cm := jsGet cs "currentMessage"
  let hval := jsOr (jsGet cs "history") (Json.arr [])
  match iterElems hval with
  | none => none
  | some entries =>
    match pushHistoryEntries entries [] with
    | none => none
    | some hist =>
      let messages :=
        match jsGetOpt (jsGetOpt cm "userInputMessage") "content" with
        | some c => if jsTruthy c then hist ++ [⟨"user", some (textBlock c)⟩] else hist
        | none => hist
      some ⟨mapModelId (jsGetOpt (jsGetOpt cm "userInputMessage") "modelId"),
        messages, 8192, true⟩

/-- Spec-side assistant case: an assistant message, its content wrapped
as a single text block, for an entry with non-empty (truthy)
`assistantResponseMessage` content. -/
def specAssistantMessage (entry : Json) : Option ChatMessage :=
  match jsGetOpt (jsGet entry "assistantResponseMessage") "content" with
  | some c => if jsTruthy c then some ⟨"assistant", some (textBlock c)⟩ else none
  | none => none

/-- Spec-side per-entry translation: one user message per (truthy)
`userInputMessage` entry, else one assistant message per entry with
non-empty `assistantResponseMessage` content, else nothing. -/
def specHistoryMessage (entry : Json) : Option ChatMessage :=
  match jsGet entry "userInputMessage" with
  | some u => if jsTruthy u then some ⟨"user", jsGet u "content"⟩ else specAssistantMessage entry
  | none => specAssistantMessage entry

/-- `conversationState` is absent or not an object. -/
def csMalformed (req : Json) : Bool :=
  match jsGet req "conversationState" with
  | none => true
  | some (Json.obj _) => false
  | some _ => true

/-- On a non-null receiver the member access does not throw. -/
lemma jsGetMember_of_ne_null (j : Json) (key : String) (h : j ≠ Json.null) :
    jsGetMember j key = some (jsGet j key) := by
  cases j with
  | null => exact absurd rfl h
  | bool b => rfl
  | num lit => rfl
  | str s => rfl
  | arr es => rfl
  | obj fs => rfl

/-- On a non-null entry the loop body appends exactly the spec-side
per-entry message. -/
lemma pushHistoryEntry_eq_spec (acc : List ChatMessage) (e : Json)
    (he : e ≠ Json.null) :
    pushHistoryEntry acc e = some (acc ++ (specHistoryMessage e).toList) := by
  unfold pushHistoryEntry specHistoryMessage pushAssistant specAssistantMessage
  rw [jsGetMember_of_ne_null e "userInputMessage" he]
  cases hu : jsGet e "userInputMessage" with
  | some u =>
    by_cases ht : jsTruthy u = true
    · simp [ht]
    · simp only [Bool.not_eq_true] at ht
      cases hc : jsGetOpt (jsGet e "assistantResponseMessage") "content" with
      | some c =>
        by_cases htc : jsTruthy c = true
        · simp [ht, htc]
        · simp only [Bool.not_eq_true] at htc
          simp [ht, htc]
      | none => simp [ht]
  | none =>
    cases hc : jsGetOpt (jsGet e "assistantResponseMessage") "content" with
    | some c =>
      by_cases htc : jsTruthy c = true
      · simp [htc]
      · simp only [Bool.not_eq_true] at htc
        simp [htc]
    | none => simp

/-- On null-free history the loop appends, in order, the spec-side
messages. -/
lemma pushHistoryEntries_eq_spec (entries : List Json)
    (hnn : ∀ e ∈ entries, e ≠ Json.null) :
    ∀ acc, pushHistoryEntries entries acc =
      some (acc ++ entries.filterMap specHistoryMessage) := by
  induction entries with
  | nil => intro acc; simp [pushHistoryEntries]
  | cons e es ih =>
    intro acc
    have he : e ≠ Json.null := hnn e (by simp)
    simp only [pushHistoryEntries, pushHistoryEntry_eq_spec acc e he]
    rw [ih (fun x hx => hnn x (by simp [hx]))]
    cases h : specHistoryMessage e <;> simp [List.filterMap_cons, h]

/-- Iterating over a string's characters produces no messages. -/
lemma pushHistoryEntries_strChars (cs : List Char) (acc : List ChatMessage) :
    pushHistoryEntries (cs.map fun c => Json.str (String.mk [c])) acc = some acc := by
  induction cs generalizing acc with
  | nil => rfl
  | cons c cs ih =>
    simp only [List.map_cons, pushHistoryEntries, pushHistoryEntry, jsGetMember,
      jsGet, pushAssistant, jsGetOpt]
    exact ih acc

/-- Objects are truthy. -/
lemma jsTruthy_obj (fs : List (String × Json)) : jsTruthy (Json.obj fs) = true := rfl

/-- Arrays are truthy. -/
lemma jsTruthy_arr (es : List Json) : jsTruthy (Json.arr es) = true := rfl

/-- C4 counterexample: a null history entry makes the unguarded member
access `msg.userInputMessage` of the history loop throw a TypeError, so
no translation is produced at all (the endpoint catches the throw and
answers 500), although the claim asserts a successful order-preserving
translation for every history. -/
theorem kiroToAnthropic_null_entry_counterexample :
    kiroToAnthropic (Json.obj [("conversationState", Json.obj
        [("history", Json.arr [Json.null]),
         ("currentMessage", Json.obj [("userInputMessage", Json.obj
            [("content", Json.str "Hello"), ("modelId", Json.str "m")])])])]) =
      none := rfl

/-- C4 (amended): for a host request whose history entries are all
non-null, `kiroToAnthropic` produces exactly the per-entry messages of
the history in original order with the current user turn appended last,
sets `max_tokens = 8192` and `stream = true`; an absent or malformed
(non-object) `conversationState` yields an empty message list instead of
a crash. (A null history entry instead throws on the unguarded
`msg.userInputMessage` access, so no translation is produced and the
endpoint answers 500.) -/
theorem kiroToAnthropic_translation :
    (∀ (entries : List Json) (cur modelId : Json),
      (∀ e ∈ entries, e ≠ Json.null) → jsTruthy cur = true →
      kiroToAnthropic (Json.obj [("conversationState", Json.obj
          [("history", Json.arr entries),
           ("currentMessage", Json.obj [("userInputMessage", Json.obj
              [("content", cur), ("modelId", modelId)])])])]) =
        some ⟨mapModelId (some modelId),
          entries.filterMap specHistoryMessage ++ [⟨"user", some (textBlock cur)⟩],
          8192, true⟩) ∧
    (∀ req : Json, csMalformed req = true →
      ∃ r, kiroToAnthropic req = some r ∧ r.messages = [] ∧
        r.max_tokens = 8192 ∧ r.stream = true) := by
  constructor
  · intro entries cur modelId hnn hcur
    simp [kiroToAnthropic, jsGet, jsLookup, jsOr, jsGetOpt, iterElems,
      pushHistoryEntries_eq_spec entries hnn, hcur, jsTruthy_obj, jsTruthy_arr]
  · intro req hmal
    unfold csMalformed at hmal
    cases hcs : jsGet req "conversationState" with
    | none =>
      refine ⟨⟨mapModelId none, [], 8192, true⟩, ?_, rfl, rfl, rfl⟩
      simp only [kiroToAnthropic, hcs]
      simp [jsGet, jsLookup, jsOr, jsTruthy, jsGetOpt, iterElems, pushHistoryEntries]
    | some v =>
      rw [hcs] at hmal
      refine ⟨⟨mapModelId none, [], 8192, true⟩, ?_, rfl, rfl, rfl⟩
      simp only [kiroToAnthropic, hcs]
      cases v with
      | obj fs => simp at hmal
      | null =>
        simp [jsGet, jsLookup, jsOr, jsTruthy, jsGetOpt, iterElems, pushHistoryEntries]
      | bool b =>
        cases b <;>
          simp [jsGet, jsLookup, jsOr, jsTruthy, jsGetOpt, iterElems, pushHistoryEntries]
      | num lit =>
        by_cases ht : jsNumTruthy lit = true <;>
          simp [jsGet, jsLookup, jsOr, jsTruthy, ht, jsGetOpt, iterElems,
            pushHistoryEntries]
      | str s =>
        by_cases hs : s = "" <;>
          simp [jsGet, jsLookup, jsOr, jsTruthy, hs, jsGetOpt, iterElems,
            pushHistoryEntries, pushHistoryEntries_strChars]
      | arr es =>
        simp [jsGet, jsLookup, jsOr, jsTruthy, jsGetOpt, iterElems, pushHistoryEntries]

/-- Witness for C4 at a concrete one-entry (non-null) history plus
current turn, and a concrete malformed request. -/
theorem kiroToAnthropic_translation_witness :
    (kiroToAnthropic (Json.obj [("conversationState", Json.obj
        [("history", Json.arr [Json.obj [("userInputMessage",
            Json.obj [("content", Json.str "Q1")])]]),
         ("currentMessage", Json.obj [("userInputMessage", Json.obj
            [("content", Json.str "Hello"), ("modelId", Json.str "claude-haiku")])])])]) =
      some ⟨mapModelId (some (Json.str "claude-haiku")),
        [Json.obj [("userInputMessage", Json.obj [("content", Json.str "Q1")])]].filterMap
            specHistoryMessage ++ [⟨"user", some (textBlock (Json.str "Hello"))⟩],
        8192, true⟩) ∧
    (∃ r, kiroToAnthropic (Json.str "bogus") = some r ∧ r.messages = [] ∧
      r.max_tokens = 8192 ∧ r.stream = true) :=
  ⟨kiroToAnthropic_translation.1 _ _ _
      (by intro e he; simp at he; subst he; simp) (by decide),
   kiroToAnthropic_translation.2 (Json.str "bogus") (by decide)⟩

/-- C5 counterexample: "constructor" is a non-empty id distinct from
both aliases, yet `MODEL_MAP["constructor"]` resolves through the
prototype chain to the inherited truthy `Object.prototype.constructor`,
which `mapModelId` returns instead of the id unchanged. -/
theorem mapModelId_constructor_counterexample :
    mapModelId (some (Json.str "constructor")) = JsVal.protoMember "constructor" ∧
    JsVal.protoMember "constructor" ≠ JsVal.json (Json.str "constructor") := by
  refine ⟨rfl, ?_⟩
  intro h
  exact JsVal.noConfusion h

/-- C5 (amended): `mapModelId` is total; the aliases "claude-haiku" and
"simple-task" map to "gemini-3-flash"; any other non-empty id that is
not the name of an inherited `Object.prototype` member is returned
unchanged (a prototype-member name such as "constructor" instead
resolves to the inherited truthy member); and an empty or absent id
yields the default "claude-sonnet-4-5-thinking". -/
theorem mapModelId_total_behaviour :
    mapModelId (some (Json.str "claude-haiku")) =
      JsVal.json (Json.str "gemini-3-flash") ∧
    mapModelId (some (Json.str "simple-task")) =
      JsVal.json (Json.str "gemini-3-flash") ∧
    (∀ s : String, s ≠ "claude-haiku" → s ≠ "simple-task" → s ≠ "" →
      s ∉ OBJECT_PROTO_MEMBERS →
      mapModelId (some (Json.str s)) = JsVal.json (Json.str s)) ∧
    mapModelId (some (Json.str "")) =
      JsVal.json (Json.str "claude-sonnet-4-5-thinking") ∧
    mapModelId none = JsVal.json (Json.str "claude-sonnet-4-5-thinking") := by
  refine ⟨rfl, rfl, ?_, rfl, rfl⟩
  intro s h1 h2 h3 h4
  have h1' : ¬ ("claude-haiku" = s) := fun h => h1 h.symm
  have h2' : ¬ ("simple-task" = s) := fun h => h2 h.symm
  simp [mapModelId, modelMapLookup, MODEL_MAP, lookupModel, jsPropKey,
    jsOrDefaultModel, jsTruthy, h1', h2', h3, h4]

/-- Witness for C5 (amended) at the unmapped non-empty id "foo". -/
theorem mapModelId_total_behaviour_witness :
    ("foo" : String) ≠ "claude-haiku" ∧ ("foo" : String) ≠ "simple-task" ∧
      ("foo" : String) ≠ "" ∧ ("foo" : String) ∉ OBJECT_PROTO_MEMBERS ∧
      mapModelId (some (Json.str "foo")) = JsVal.json (Json.str "foo") :=
  ⟨by decide, by decide, by decide, by decide,
    mapModelId_total_behaviour.2.2.1 "foo" (by decide) (by decide) (by decide)
      (by decide)⟩

/-! ### Model listing (source lines 327-357, 364-369) -/

/-- Does `sub` match `s` at its head (JS `String.prototype.startsWith`)? -/
def startsWithList : List Char → List Char → Bool
  | _, [] => true
  | [], _ :: _ => false
  | c :: cs, d :: ds => c = d && startsWithList cs ds

/-- JS `String.prototype.includes`: `sub` occurs somewhere in `s`. -/
def containsList (s sub : List Char) : Bool :=
  startsWithList s sub ||
    match s with
    | [] => false
    | _ :: cs => containsList cs sub

/-- The static fallback model list. -/
def FALLBACK_MODELS : List String :=
  ["claude-sonnet-4-5-thinking", "claude-sonnet-4-5", "gemini-3-pro-high", "gemini-3-flash"]

/-- The filter applied to fetched model ids:
`m => !m.includes("image") && !m.startsWith("gemini-2.5")`. -/
def modelFilterPred (m : String) : Bool :=
  !containsList m.toList "image".toList && !startsWithList m.toList "gemini-2.5".toList

/-- `getFilteredModels()`: `upstream` is the resolved value of the
best-effort `/account-limits` fetch (`none` when the request erred or
its body failed to parse, both of which resolve `null` in the source).
Any other failure inside the `try` (missing/falsy `models`, `models` not
an array of strings so that `.filter`/`.includes` throws) yields the
fallback list. -/
def getFilteredModels (upstream : Option Json) : List String :=
  match upstream with
  | none => FALLBACK_MODELS
  | some res =>
    if jsTruthy res then
      match jsGet res "models" with
      | some m =>
        if jsTruthy m then
          match m with
          | Json.arr es =>
            if es.all (fun e => match e with | Json.str _ => true | _ => false) then
              (es.filterMap (fun e => match e with | Json.str s => some s | _ => none)).filter
                modelFilterPred
            else FALLBACK_MODELS
          | _ => FALLBACK_MODELS
        else FALLBACK_MODELS
      | none => FALLBACK_MODELS
    else FALLBACK_MODELS

/-- `buildModelResponse(modelIds)`: the model-listing body served to the
host IDE. -/
def buildModelResponse (modelIds : List String) : Json :=
  let models := modelIds.map fun id => Json.obj
    [("modelId", Json.str id), ("modelName", Json.str id), ("description", Json.str id),
     ("rateMultiplier", Json.num "0"), ("rateUnit", Json.str "credit"),
     ("supportedInputTypes", Json.arr [Json.str "TEXT"]),
     ("tokenLimits", Json.obj [("maxInputTokens", Json.num "200000"),
        ("maxOutputTokens", Json.num "8192")])]
  Json.obj
    [("defaultModel", Json.obj [("modelId", Json.str
        (match modelIds.head? with
         | some id => if id ≠ "" then id else "claude-sonnet-4-5-thinking"
         | none => "claude-sonnet-4-5-thinking"))]),
     ("models", Json.arr models), ("nextToken", Json.null)]

/-- The `/ListAvailableModels` handler: HTTP status and JSON body. -/
def handleListAvailableModels (upstream : Option Json) : Nat × Json :=
  (200, buildModelResponse (getFilteredModels upstream))

/-- The upstream `/account-limits` fetch failed: it threw / timed out /
returned an unparseable body (`none`), or resolved to a falsy value, or
to data without a truthy `models` field. -/
def upstreamFailed (u : Option Json) : Bool :=
  match u with
  | none => true
  | some res => !jsTruthy res || !jsTruthyOpt (jsGet res "models")

/-- On a failed upstream fetch the filtered model list is the static
fallback list. -/
lemma getFilteredModels_fallback (u : Option Json) (h : upstreamFailed u = true) :
    getFilteredModels u = FALLBACK_MODELS := by
  cases u with
  | none => rfl
  | some res =>
    simp only [upstreamFailed] at h
    simp only [getFilteredModels]
    by_cases ht : jsTruthy res = true
    · rw [if_pos ht]
      cases hm : jsGet res "models" with
      | none => rfl
      | some m =>
        have hmf : jsTruthy m = false := by
          simp [ht, hm, jsTruthyOpt] at h
          exact h
        simp [hmf]
    · rw [if_neg ht]

/-- C9: whenever the upstream `/account-limits` fetch fails,
`/ListAvailableModels` still answers HTTP 200 with the static 4-model
fallback list, on which the model filter is the identity (no fallback
entry contains "image" or starts with "gemini-2.5"); no error status is
surfaced. -/
theorem listAvailableModels_fallback (u : Option Json)
    (h : upstreamFailed u = true) :
    handleListAvailableModels u =
      (200, buildModelResponse (FALLBACK_MODELS.filter modelFilterPred)) ∧
    FALLBACK_MODELS.filter modelFilterPred = FALLBACK_MODELS := by
  have hfb : FALLBACK_MODELS.filter modelFilterPred = FALLBACK_MODELS := by decide
  refine ⟨?_, hfb⟩
  unfold handleListAvailableModels
  rw [getFilteredModels_fallback u h, hfb]

/-- Witness for C9 at a concrete failed fetch. -/
theorem listAvailableModels_fallback_witness :
    upstreamFailed none = true ∧
    (handleListAvailableModels none =
        (200, buildModelResponse (FALLBACK_MODELS.filter modelFilterPred)) ∧
      FALLBACK_MODELS.filter modelFilterPred = FALLBACK_MODELS) :=
  ⟨rfl, listAvailableModels_fallback none rfl⟩

/-! ### JSON.parse (used on upstream SSE data lines) -/

/-- JSON whitespace. -/
def isJsonWs (c : Char) : Bool :=
  c = ' ' || c = Char.ofNat 9 || c = Char.ofNat 10 || c = Char.ofNat 13

/-- Skip leading JSON whitespace. -/
def skipWs (cs : List Char) : List Char := cs.dropWhile isJsonWs

/-- ASCII digit test. -/
def isDigit (c : Char) : Bool := '0' ≤ c && c ≤ '9'

/-- Value of one hex digit. -/
def hexVal (c : Char) : Option Nat :=
  if '0' ≤ c ∧ c ≤ '9' then some (c.toNat - 48)
  else if 'a' ≤ c ∧ c ≤ 'f' then some (c.toNat - 87)
  else if 'A' ≤ c ∧ c ≤ 'F' then some (c.toNat - 55)
  else none

/-- Value of a 4-hex-digit escape. -/
def hex4 (cs : List Char) : Option Nat :=
  match cs with
  | a :: b :: c :: d :: _ =>
    match hexVal a, hexVal b, hexVal c, hexVal d with
    | some x, some y, some z, some w => some (((x * 16 + y) * 16 + z) * 16 + w)
    | _, _, _, _ => none
  | _ => none

/-- Single-character JSON string escapes. -/
def jsonEscVal (c : Char) : Option Char :=
  if c = '"' then some '"'
  else if c = '\\' then some '\\'
  else if c = '/' then some '/'
  else if c = 'b' then some (Char.ofNat 8)
  else if c = 'f' then some (Char.ofNat 12)
  else if c = 'n' then some (Char.ofNat 10)
  else if c = 'r' then some (Char.ofNat 13)
  else if c = 't' then some (Char.ofNat 9)
  else none

/-- Lexeme of a JSON number (sign, integer, fraction, exponent). -/
def parseNumLex (cs : List Char) : Option (List Char × List Char) :=
  let sp : List Char × List Char :=
    match cs with
    | '-' :: t => (['-'], t)
    | _ => ([], cs)
  let ipart : Option (List Char × List Char) :=
    match sp.2 with
    | '0' :: t => some (['0'], t)
    | c :: t => if isDigit c then some (c :: t.takeWhile isDigit, t.dropWhile isDigit) else none
    | [] => none
  match ipart with
  | none => none
  | some (ip, cs2) =>
    let fracRes : Option (List Char × List Char) :=
      match cs2 with
      | '.' :: t =>
        let ds := t.takeWhile isDigit
        if ds = [] then none else some ('.' :: ds, t.dropWhile isDigit)
      | _ => some ([], cs2)
    match fracRes with
    | none => none
    | some (fp, cs3) =>
      let expRes : Option (List Char × List Char) :=
        match cs3 with
        | e :: t =>
          if e = 'e' ∨ e = 'E' then
            let sg : List Char × List Char :=
              match t with
              | '+' :: u => (['+'], u)
              | '-' :: u => (['-'], u)
              | _ => ([], t)
            let ds := sg.2.takeWhile isDigit
            if ds = [] then none else some (e :: (sg.1 ++ ds), sg.2.dropWhile isDigit)
          else some ([], cs3)
        | [] => some ([], cs3)
      match expRes with
      | none => none
      | some (ep, cs4) => some (sp.1 ++ ip ++ fp ++ ep, cs4)

mutual

/-- Fuel-indexed JSON value (the fuel is ample at every call site; each
recursive call consumes at least one input character). -/
def parseVal : Nat → List Char → Option (Json × List Char)
  | 0, _ => none
  | fuel + 1, cs =>
    match skipWs cs with
    | [] => none
    | c :: rest =>
      if c = '"' then
        match parseStrChars fuel rest with
        | some (s, r) => some (Json.str (String.mk s), r)
        | none => none
      else if c = Char.ofNat 123 then
        match skipWs rest with
        | d :: rest2 =>
          if d = Char.ofNat 125 then some (Json.obj [], rest2)
          else
            match parseMembers fuel rest with
            | some (ms, r) => some (Json.obj ms, r)
            | none => none
        | [] => none
      else if c = '[' then
        match skipWs rest with
        | ']' :: r2 => some (Json.arr [], r2)
        | _ =>
          match parseElems fuel rest with
          | some (vs, r) => some (Json.arr vs, r)
          | none => none
      else if c = 't' then
        match rest with
        | 'r' :: 'u' :: 'e' :: r => some (Json.bool true, r)
        | _ => none
      else if c = 'f' then
        match rest with
        | 'a' :: 'l' :: 's' :: 'e' :: r => some (Json.bool false, r)
        | _ => none
      else if c = 'n' then
        match rest with
        | 'u' :: 'l' :: 'l' :: r => some (Json.null, r)
        | _ => none
      else
        match parseNumLex (c :: rest) with
        | some (lex, r) => some (Json.num (String.mk lex), r)
        | none => none

/-- Fuel-indexed object member list, ending at the closing brace. -/
def parseMembers : Nat → List Char → Option (List (String × Json) × List Char)
  | 0, _ => none
  | fuel + 1, cs =>
    match skipWs cs with
    | '"' :: rest =>
      match parseStrChars fuel rest with
      | some (k, r1) =>
        match skipWs r1 with
        | ':' :: r2 =>
          match parseVal fuel r2 with
          | some (v, r3) =>
            match skipWs r3 with
            | ',' :: r4 =>
              match parseMembers fuel r4 with
              | some (ms, r5) => some ((String.mk k, v) :: ms, r5)
              | none => none
            | d :: r4 =>
              if d = Char.ofNat 125 then some ([(String.mk k, v)], r4) else none
            | [] => none
          | none => none
        | _ => none
      | none => none
    | _ => none

/-- Fuel-indexed array element list, ending at the closing bracket. -/
def parseElems : Nat → List Char → Option (List Json × List Char)
  | 0, _ => none
  | fuel + 1, cs =>
    match parseVal fuel cs with
    | some (v, r1) =>
      match skipWs r1 with
      | ',' :: r2 =>
        match parseElems fuel r2 with
        | some (vs, r3) => some (v :: vs, r3)
        | none => none
      | ']' :: r2 => some ([v], r2)
      | _ => none
    | none => none

/-- Fuel-indexed JSON string body after the opening quote. UTF-16
surrogate escape pairs are combined into one scalar; lone surrogates
(not representable as `Char`) are rejected. -/
def parseStrChars : Nat → List Char → Option (List Char × List Char)
  | 0, _ => none
  | fuel + 1, cs =>
    match cs with
    | [] => none
    | c :: rest =>
      if c = '"' then some ([], rest)
      else if c = '\\' then
        match rest with
        | [] => none
        | e :: rest2 =>
          if e = 'u' then
            match hex4 rest2 with
            | none => none
            | some code =>
              if 55296 ≤ code ∧ code ≤ 56319 then
                match rest2.drop 4 with
                | '\\' :: 'u' :: rest3 =>
                  match hex4 rest3 with
                  | some low =>
                    if 56320 ≤ low ∧ low ≤ 57343 then
                      match parseStrChars fuel (rest3.drop 4) with
                      | some (s, r) =>
                        some (Char.ofNat (65536 + (code - 55296) * 1024 + (low - 56320)) :: s, r)
                      | none => none
                    else none
                  | none => none
                | _ => none
              else if 56320 ≤ code ∧ code ≤ 57343 then none
              else
                match parseStrChars fuel (rest2.drop 4) with
                | some (s, r) => some (Char.ofNat code :: s, r)
                | none => none
          else
            match jsonEscVal e with
            | some ch =>
              match parseStrChars fuel rest2 with
              | some (s, r) => some (ch :: s, r)
              | none => none
            | none => none
      else if c.toNat < 32 then none
      else
        match parseStrChars fuel rest with
        | some (s, r) => some (c :: s, r)
        | none => none

end

/-- `JSON.parse`: parse a complete JSON text; trailing non-space input
is a parse error. -/
def jsonParse (cs : List Char) : Option Json :=
  match parseVal (cs.length + 1) cs with
  | some (j, rest) => if skipWs rest = [] then some j else none
  | none => none

/-! ### /generateAssistantResponse streaming handler (source 371-404) -/

/-- `String.prototype.split("\n")` on char lists. -/
def splitNl : List Char → List (List Char)
  | [] => [[]]
  | c :: cs =>
    if c = Char.ofNat 10 then [] :: splitNl cs
    else
      match splitNl cs with
      | g :: gs => (c :: g) :: gs
      | [] => [[c]]

/-- Handling of one complete SSE line: a `data: ` line that is not
`[DONE]` and parses to a `content_block_delta` event with truthy
`delta.text` yields one encoded `assistantResponseEvent` frame; every
other line (including unparseable ones, which are only logged) yields
nothing. -/
def processLine (ln : List Char) : Option (List Nat) :=
  if startsWithList ln "data: ".toList then
    let d := ln.drop 6
    if d = "[DONE]".toList then none
    else
      match jsonParse d with
      | some ev =>
        match jsGet ev "type" with
        | some (Json.str t) =>
          if t = "content_block_delta" then
            match jsGetOpt (jsGet ev "delta") "text" with
            | some txt =>
              if jsTruthy txt then some (createAssistantResponseEvent txt) else none
            | none => none
          else none
        | _ => none
      | none => none
  else none

/-- Per-chunk state of the streaming loop: leftover partial line and the
frames written so far. -/
structure SSEState where
  buf : List Char
  frames : List (List Nat)

/-- The `data` listener: append the chunk to the buffer, split on
newlines, keep the last (possibly incomplete) piece as the new buffer
and process the complete lines in order. -/
def onData (st : SSEState) (chunk : List Char) : SSEState :=
  let lines := splitNl (st.buf ++ chunk)
  ⟨lines.getLastD [], st.frames ++ lines.dropLast.filterMap processLine⟩

/-- The `end` listener: write one metering event (usage 0.001) and one
context-usage event (0.5), then end the response. -/
def onEnd (st : SSEState) : List (List Nat) × Bool :=
  (st.frames ++ [createMeteringEvent (Json.num "0.001"),
    createContextUsageEvent (Json.num "0.5")], true)

/-- All frames written, in order, for an upstream chunk sequence,
paired with whether the response was ended. -/
def runStream (chunks : List (List Char)) : List (List Nat) × Bool :=
  onEnd (chunks.foldl onData ⟨[], []⟩)

/-- C2: on an upstream stream delivering exactly the two SSE lines with
content-block deltas "Hi" and " there", the handler writes exactly two
`assistantResponseEvent` frames with payload content "Hi" then " there"
in that order, then one `meteringEvent` frame (usage 0.001) and one
`contextUsageEvent` frame (contextUsagePercentage 0.5), and then closes
the response; no other frames are written. -/
theorem generateAssistantResponse_scenario :
    runStream
      ["data: \x7b\"type\":\"content_block_delta\",\"delta\":\x7b\"text\":\"Hi\"\x7d\x7d\n\n".toList,
       "data: \x7b\"type\":\"content_block_delta\",\"delta\":\x7b\"text\":\" there\"\x7d\x7d\n\n".toList] =
      ([createAssistantResponseEvent (Json.str "Hi"),
        createAssistantResponseEvent (Json.str " there"),
        createMeteringEvent (Json.num "0.001"),
        createContextUsageEvent (Json.num "0.5")], true) := by
  rfl

/-! ### Extension patcher (source lines 530-599)

The two patterns of `patchKiro` are
`/endpoint:\s*"https:\/\/q\.[a-z0-9-]+\.amazonaws\.com"/g` and
`/https:\/\/q\.[a-z0-9-]+\.amazonaws\.com/g`. For these patterns a
greedy character-class run needs no backtracking (a shorter run would
have to be followed by a literal `.` or `"`, yet it ends at a class
character), so head matching is modelled by literal prefixes around a
greedy `takeWhile`. -/

/-- The regex character class `[a-z0-9-]`. -/
def isClassChar (c : Char) : Bool :=
  ('a' ≤ c && c ≤ 'z') || ('0' ≤ c && c ≤ '9') || c = '-'

/-- JavaScript `\s` (ECMAScript WhiteSpace and LineTerminator set). -/
def isJsWsChar (c : Char) : Bool :=
  c = ' ' || c = Char.ofNat 9 || c = Char.ofNat 10 || c = Char.ofNat 13 ||
  c = Char.ofNat 11 || c = Char.ofNat 12 || c = Char.ofNat 160 ||
  c = Char.ofNat 65279 || (8192 ≤ c.toNat && c.toNat ≤ 8202) ||
  c = Char.ofNat 8232 || c = Char.ofNat 8233 || c = Char.ofNat 8239 ||
  c = Char.ofNat 12288 || c = Char.ofNat 5760

/-- Literal prefix `https://q.` of the upstream URL pattern. -/
def urlLit1 : List Char := "https://q.".toList

/-- Literal suffix `.amazonaws.com` of the upstream URL pattern. -/
def urlLit2 : List Char := ".amazonaws.com".toList

/-- Literal prefix `endpoint:` of the endpoint-assignment pattern. -/
def epLit : List Char := "endpoint:".toList

/-- Replacement for bare URL matches: `http://localhost:9980`. -/
def replUrl : List Char := "http://localhost:9980".toList

/-- Replacement for endpoint-assignment matches:
`endpoint: "http://localhost:9980"`. -/
def replEp : List Char := "endpoint: \"http://localhost:9980\"".toList

/-- Head match of the any-region upstream URL pattern
`https:\/\/q\.[a-z0-9-]+\.amazonaws\.com`: returns the match length. -/
def matchUrl (xs : List Char) : Option Nat :=
  if startsWithList xs urlLit1 then
    let run := (xs.drop 10).takeWhile isClassChar
    if run ≠ [] ∧ startsWithList (xs.drop (10 + run.length)) urlLit2 = true then
      some (24 + run.length)
    else none
  else none

/-- Head match of the endpoint-assignment pattern
`endpoint:\s*"https:\/\/q\.[a-z0-9-]+\.amazonaws\.com"`. -/
def matchEndpoint (xs : List Char) : Option Nat :=
  if startsWithList xs epLit then
    match xs.drop (9 + ((xs.drop 9).takeWhile isJsWsChar).length) with
    | '"' :: rest2 =>
      match matchUrl rest2 with
      | some m =>
        if startsWithList (rest2.drop m) ['"'] then
          some (9 + ((xs.drop 9).takeWhile isJsWsChar).length + 1 + m + 1)
        else none
      | none => none
    | _ => none
  else none

/-- Global regex replacement (`String.prototype.replace` with a `/g`
pattern): scan left to right; at each position either emit the
replacement and resume after the matched span, or keep the character.
(The matchers used here never match the empty string.) -/
def replaceAll (m : List Char → Option Nat) (repl : List Char) : List Char → List Char
  | [] => []
  | c :: cs =>
    match m (c :: cs) with
    | some (l + 1) => repl ++ replaceAll m repl (cs.drop l)
    | _ => c :: replaceAll m repl cs
termination_by s => s.length
decreasing_by
  · simp [List.length_drop]
    omega
  · simp

/-- `pattern.test(s)`: the matcher succeeds at some position. -/
def hasMatchL (m : List Char → Option Nat) : List Char → Bool
  | [] => (m []).isSome
  | c :: cs => (m (c :: cs)).isSome || hasMatchL m cs

/-- First iteration of the pattern loop in `patchKiro`: test the
endpoint-assignment pattern and replace globally when present. -/
def patchPass1 (content : List Char) : List Char :=
  if hasMatchL matchEndpoint content then replaceAll matchEndpoint replEp content
  else content

/-- Second iteration of the pattern loop: test the bare URL pattern and
replace globally when present. -/
def patchPass2 (content : List Char) : List Char :=
  if hasMatchL matchUrl content then replaceAll matchUrl replUrl content
  else content

/-- The two pattern applications of `patchKiro`: each pattern is tested
and, when present, globally replaced; returns the rewritten content and
whether either pattern matched. -/
def applyPatchPatterns (content : List Char) : List Char × Bool :=
  (patchPass2 (patchPass1 content),
   hasMatchL matchEndpoint content || hasMatchL matchUrl (patchPass1 content))

/-- Filesystem state visible to the patcher: whether the Kiro install
(and hence the extension path) was located, the extension file content
(`none` when the file does not exist), the `.backup` sibling content,
and whether reading each of the two files raises an I/O error. Writes
and copies are modelled as succeeding. -/
structure KiroFS where
  located : Bool
  ext : Option (List Char)
  backup : Option (List Char)
  extReadErr : Bool
  backupReadErr : Bool

/-- Result of a patch or restore operation. -/
structure PatchResult where
  success : Bool
  error : Option String

/-- `getValidExtensionPath()` succeeds: install located and extension
file present. -/
def validExtensionPath (σ : KiroFS) : Bool := σ.located && σ.ext.isSome

/-- The content test of `isKiroPatched`: contains the bridge's local
endpoint string and not the fixed `us-east-1` upstream endpoint
string. -/
def isKiroPatchedContent (c : List Char) : Bool :=
  containsList c "localhost:9980".toList &&
    !containsList c "https://q.us-east-1.amazonaws.com".toList

/-- `isKiroPatched()`: false when the file cannot be located or read. -/
def isKiroPatched (σ : KiroFS) : Bool :=
  match σ.ext with
  | some c => σ.located && !σ.extReadErr && isKiroPatchedContent c
  | none => false

/-- `patchKiro()`: locate the extension, create the `.backup` once (only
when absent), rewrite the endpoint patterns and write the result back;
with no matching pattern, succeed as a no-op only on an
already-patched file. -/
def patchKiro (σ : KiroFS) : PatchResult × KiroFS :=
  if !validExtensionPath σ then (⟨false, some "Kiro extension not found"⟩, σ)
  else
    let σ1 : KiroFS :=
      if σ.backup.isNone then ⟨σ.located, σ.ext, σ.ext, σ.extReadErr, σ.backupReadErr⟩
      else σ
    if σ1.extReadErr then (⟨false, some "read error"⟩, σ1)
    else
      match σ1.ext with
      | none => (⟨false, some "Kiro extension not found"⟩, σ1)
      | some content =>
        let res := applyPatchPatterns content
        if !res.2 && isKiroPatched σ1 then (⟨true, none⟩, σ1)
        else if !res.2 then (⟨false, some "No patchable patterns found"⟩, σ1)
        else (⟨true, none⟩, ⟨σ1.located, some res.1, σ1.backup, σ1.extReadErr, σ1.backupReadErr⟩)

/-- `restoreKiro()`: requires the located path and an existing backup;
copies the backup content back over the live extension file. -/
def restoreKiro (σ : KiroFS) : PatchResult × KiroFS :=
  if !σ.located then (⟨false, some "Kiro extension not found"⟩, σ)
  else
    match σ.backup with
    | none => (⟨false, some "No backup found"⟩, σ)
    | some b =>
      if σ.backupReadErr then (⟨false, some "read error"⟩, σ)
      else (⟨true, none⟩, ⟨σ.located, some b, σ.backup, σ.extReadErr, σ.backupReadErr⟩)

/-! ### Matching infrastructure for the patcher proofs -/

/-- Unfolding of `replaceAll` on the empty input. -/
lemma replaceAll_nil (m : List Char → Option Nat) (repl : List Char) :
    replaceAll m repl [] = [] := by
  conv_lhs => unfold replaceAll

/-- Unfolding of `replaceAll` at a match. -/
lemma replaceAll_cons_pos (m : List Char → Option Nat) (repl : List Char)
    (c : Char) (cs : List Char) (l : Nat) (h : m (c :: cs) = some (l + 1)) :
    replaceAll m repl (c :: cs) = repl ++ replaceAll m repl (cs.drop l) := by
  conv_lhs => unfold replaceAll
  rw [h]

/-- Unfolding of `replaceAll` at a non-match. -/
lemma replaceAll_cons_none (m : List Char → Option Nat) (repl : List Char)
    (c : Char) (cs : List Char) (h : m (c :: cs) = none) :
    replaceAll m repl (c :: cs) = c :: replaceAll m repl cs := by
  conv_lhs => unfold replaceAll
  rw [h]

/-- Head matching is equivalent to a `take` equation. -/
lemma startsWithList_iff_take (s w : List Char) :
    startsWithList s w = true ↔ s.take w.length = w := by
  induction w generalizing s with
  | nil => simp [startsWithList]
  | cons d ds ih =>
    cases s with
    | nil => simp [startsWithList]
    | cons c cs =>
      simp [startsWithList, List.take_succ_cons, ih]

/-- A list starts with any of its prefixes. -/
lemma startsWithList_append (w t : List Char) : startsWithList (w ++ t) w = true := by
  induction w with
  | nil => cases t <;> rfl
  | cons c cs ih => simp [startsWithList, ih]

/-- A head match determines the head character. -/
lemma startsWithList_head (s : List Char) (d : Char) (ws : List Char)
    (h : startsWithList s (d :: ws) = true) : s.head? = some d := by
  cases s with
  | nil => simp [startsWithList] at h
  | cons c cs =>
    simp [startsWithList] at h
    simp [h.1]

/-- A head match determines every indexed character of the pattern. -/
lemma startsWithList_getElem (s w : List Char) (h : startsWithList s w = true)
    (i : Nat) (hi : i < w.length) : s[i]? = w[i]? := by
  rw [startsWithList_iff_take] at h
  conv_rhs => rw [← h]
  rw [List.getElem?_take_of_lt hi]

/-- A head match of an append restricts to its left part. -/
lemma startsWithList_append_left (a b w : List Char)
    (h : startsWithList (a ++ b) w = true) :
    startsWithList a (w.take a.length) = true := by
  induction a generalizing w with
  | nil => cases w <;> simp [startsWithList]
  | cons c cs ih =>
    cases w with
    | nil => simp [startsWithList]
    | cons d ds =>
      simp [startsWithList, List.take_succ_cons] at h ⊢
      exact ⟨h.1, ih ds h.2⟩

/-- A contained occurrence, by construction. -/
lemma containsList_of_parts (a sub b : List Char) :
    containsList (a ++ sub ++ b) sub = true := by
  induction a with
  | nil =>
    show containsList (sub ++ b) sub = true
    unfold containsList
    rw [startsWithList_append]
    simp
  | cons c as ih =>
    show containsList (c :: (as ++ sub ++ b)) sub = true
    have ih' : containsList (as ++ (sub ++ b)) sub = true := by
      rw [← List.append_assoc]
      exact ih
    unfold containsList
    simp [ih']

/-- A contained occurrence yields a decomposition. -/
lemma exists_of_containsList (s sub : List Char) (h : containsList s sub = true) :
    ∃ a b, s = a ++ sub ++ b := by
  induction s with
  | nil =>
    unfold containsList at h
    simp at h
    cases sub with
    | nil => exact ⟨[], [], rfl⟩
    | cons d ds => simp [startsWithList] at h
  | cons c cs ih =>
    unfold containsList at h
    simp at h
    rcases h with h | h
    · refine ⟨[], (c :: cs).drop sub.length, ?_⟩
      rw [startsWithList_iff_take] at h
      conv_lhs => rw [← List.take_append_drop sub.length (c :: cs)]
      rw [h]
      simp
    · obtain ⟨a, b, hab⟩ := ih h
      exact ⟨c :: a, b, by simp [hab]⟩

/-- A match below some position implies a positive test. -/
lemma hasMatchL_of_drop (m : List Char → Option Nat) (s : List Char) (i : Nat)
    (h : (m (s.drop i)).isSome = true) : hasMatchL m s = true := by
  induction s generalizing i with
  | nil =>
    rw [List.drop_nil] at h
    simpa [hasMatchL] using h
  | cons c cs ih =>
    cases i with
    | zero =>
      rw [List.drop_zero] at h
      simp [hasMatchL, h]
    | succ i =>
      rw [List.drop_succ_cons] at h
      simp [hasMatchL, ih i h]

/-- A negative test means no match at any position. -/
lemma hasMatchL_false_iff (m : List Char → Option Nat) :
    ∀ s, hasMatchL m s = false ↔ ∀ i, m (s.drop i) = none := by
  intro s
  induction s with
  | nil =>
    simp only [hasMatchL, List.drop_nil]
    constructor
    · intro h i
      cases hm : m [] with
      | none => rfl
      | some l => rw [hm] at h; simp at h
    · intro h
      rw [h 0]
      rfl
  | cons c cs ih =>
    simp only [hasMatchL, Bool.or_eq_false_iff, ih]
    constructor
    · rintro ⟨h0, hrest⟩ i
      cases i with
      | zero =>
        rw [List.drop_zero]
        cases hm : m (c :: cs) with
        | none => rfl
        | some l => rw [hm] at h0; simp at h0
      | succ i => rw [List.drop_succ_cons]; exact hrest i
    · intro h
      refine ⟨?_, fun i => by simpa [List.drop_succ_cons] using h (i + 1)⟩
      rw [show m (c :: cs) = none from by simpa using h 0]
      rfl

/-- `takeWhile` passes over a block of satisfying elements. -/
lemma takeWhile_all_append (p : Char → Bool) (l₁ l₂ : List Char)
    (h : ∀ a ∈ l₁, p a = true) :
    (l₁ ++ l₂).takeWhile p = l₁ ++ l₂.takeWhile p := by
  induction l₁ with
  | nil => simp
  | cons c cs ih =>
    simp only [List.cons_append, List.takeWhile_cons, h c (by simp)]
    rw [ih (fun a ha => h a (by simp [ha]))]
    simp

/-- Structure of a successful URL match: the consumed characters are
`https://q.` ++ a nonempty class run ++ `.amazonaws.com`. -/
lemma matchUrl_structure (xs : List Char) (l : Nat) (h : matchUrl xs = some l) :
    ∃ run, run ≠ [] ∧ (∀ ch ∈ run, isClassChar ch = true) ∧
      l = 24 + run.length ∧ xs = urlLit1 ++ (run ++ (urlLit2 ++ xs.drop l)) := by
  unfold matchUrl at h
  by_cases h1 : startsWithList xs urlLit1 = true
  · rw [if_pos h1] at h
    by_cases h2 : (xs.drop 10).takeWhile isClassChar ≠ [] ∧
        startsWithList (xs.drop (10 + ((xs.drop 10).takeWhile isClassChar).length))
          urlLit2 = true
    · rw [if_pos h2] at h
      obtain ⟨hne, hsw2⟩ := h2
      have hl : l = 24 + ((xs.drop 10).takeWhile isClassChar).length :=
        (Option.some.injEq _ _ ▸ h).symm
      refine ⟨(xs.drop 10).takeWhile isClassChar, hne,
        fun ch hch => List.mem_takeWhile_imp hch, hl, ?_⟩
      have hx10 : xs = urlLit1 ++ xs.drop 10 := by
        conv_lhs => rw [← List.take_append_drop 10 xs]
        rw [startsWithList_iff_take] at h1
        rw [show urlLit1.length = 10 from rfl] at h1
        rw [h1]
      obtain ⟨t, ht⟩ := (List.takeWhile_prefix isClassChar (l := xs.drop 10))
      have htd : t = (xs.drop 10).drop ((xs.drop 10).takeWhile isClassChar).length := by
        conv_lhs => rw [← List.drop_left ((xs.drop 10).takeWhile isClassChar) t]
        rw [ht]
      have hdd : xs.drop (10 + ((xs.drop 10).takeWhile isClassChar).length) = t := by
        rw [htd, List.drop_drop]
      rw [hdd] at hsw2
      have ht14 : t = urlLit2 ++ t.drop 14 := by
        conv_lhs => rw [← List.take_append_drop 14 t]
        rw [startsWithList_iff_take] at hsw2
        rw [show urlLit2.length = 14 from rfl] at hsw2
        rw [hsw2]
      have hdl : xs.drop l = t.drop 14 := by
        rw [hl, show 24 + ((xs.drop 10).takeWhile isClassChar).length =
          (10 + ((xs.drop 10).takeWhile isClassChar).length) + 14 by omega,
          ← List.drop_drop, hdd]
      rw [hdl]
      conv_lhs => rw [hx10, ← ht]
      conv_rhs => rw [← ht14]
    · rw [if_neg h2] at h
      exact absurd h (by simp)
  · rw [if_neg h1] at h
    exact absurd h (by simp)

/-- Sufficiency: any input beginning `https://q.` ++ class run ++
`.amazonaws.com` matches with the corresponding length. -/
lemma matchUrl_of_parts (run rest : List Char) (hne : run ≠ [])
    (hcls : ∀ ch ∈ run, isClassChar ch = true) :
    matchUrl (urlLit1 ++ (run ++ (urlLit2 ++ rest))) = some (24 + run.length) := by
  unfold matchUrl
  have hsw : startsWithList (urlLit1 ++ (run ++ (urlLit2 ++ rest))) urlLit1 = true :=
    startsWithList_append _ _
  rw [if_pos hsw]
  have hdrop10 : (urlLit1 ++ (run ++ (urlLit2 ++ rest))).drop 10 = run ++ (urlLit2 ++ rest) :=
    List.drop_left' rfl
  have htw : ((urlLit1 ++ (run ++ (urlLit2 ++ rest))).drop 10).takeWhile isClassChar = run := by
    rw [hdrop10, takeWhile_all_append isClassChar run (urlLit2 ++ rest) hcls,
      show urlLit2 ++ rest = '.' :: ("amazonaws.com".toList ++ rest) from rfl,
      List.takeWhile_cons]
    simp [isClassChar]
  rw [htw]
  have hd2 : (urlLit1 ++ (run ++ (urlLit2 ++ rest))).drop (10 + run.length) =
      urlLit2 ++ rest := by
    rw [← List.drop_drop, hdrop10, List.drop_left]
  rw [if_pos ⟨hne, by rw [hd2]; exact startsWithList_append _ _⟩]

/-- A URL match consumes at least one character. -/
lemma matchUrl_pos (xs : List Char) (l : Nat) (h : matchUrl xs = some l) : 1 ≤ l := by
  obtain ⟨run, _, _, hl, _⟩ := matchUrl_structure xs l h
  omega

/-- The empty input never matches the URL pattern. -/
lemma matchUrl_nil : matchUrl [] = none := by decide

/-- Unfolding of `replaceAll` at a (never produced) empty match. -/
lemma replaceAll_cons_zero (m : List Char → Option Nat) (repl : List Char)
    (c : Char) (cs : List Char) (h : m (c :: cs) = some 0) :
    replaceAll m repl (c :: cs) = c :: replaceAll m repl cs := by
  conv_lhs => unfold replaceAll
  rw [h]

/-- Every list starts with the empty pattern. -/
lemma startsWithList_nil (s : List Char) : startsWithList s [] = true := by
  cases s <;> rfl

/-- Every list starts with itself. -/
lemma startsWithList_refl (w : List Char) : startsWithList w w = true := by
  rw [startsWithList_iff_take, List.take_length]

/-- A prefix of an append starts with the left part (up to its own
length). -/
lemma startsWith_append_swap (a b w : List Char)
    (h : startsWithList (a ++ b) w = true) :
    startsWithList w (a.take w.length) = true := by
  rw [startsWithList_iff_take] at h
  rcases Nat.lt_or_ge a.length w.length with hlt | hle
  · have ha : a.take w.length = a := List.take_of_length_le (Nat.le_of_lt hlt)
    rw [ha]
    have hw : w = a ++ b.take (w.length - a.length) := by
      conv_lhs => rw [← h]
      rw [List.take_append_eq_append_take, List.take_of_length_le (Nat.le_of_lt hlt)]
    rw [hw]
    exact startsWithList_append _ _
  · have hw : w = a.take w.length := by
      conv_lhs => rw [← h]
      rw [List.take_append_eq_append_take, Nat.sub_eq_zero_of_le hle]
      simp
    rw [← hw]
    exact startsWithList_refl w

/-- If the replacement text aligns with no position of a pattern `w`,
then `w` being a prefix of the rewritten text forces it to be a prefix
of the original text. -/
lemma replaceAll_forced (m : List Char → Option Nat) (repl : List Char) :
    ∀ n (s w : List Char), s.length ≤ n →
      (∀ j, j < w.length →
        startsWithList (w.drop j) (repl.take (w.length - j)) = false) →
      startsWithList (replaceAll m repl s) w = true → startsWithList s w = true := by
  intro n
  induction n with
  | zero =>
    intro s w hs hw h
    have hnil : s = [] := List.eq_nil_of_length_eq_zero (by omega)
    subst hnil
    rwa [replaceAll_nil] at h
  | succ n ih =>
    intro s w hs hw h
    cases s with
    | nil => rwa [replaceAll_nil] at h
    | cons c cs =>
      cases w with
      | nil => exact startsWithList_nil _
      | cons d ws =>
        cases hm : m (c :: cs) with
        | some l =>
          cases l with
          | zero =>
            rw [replaceAll_cons_zero m repl c cs hm] at h
            have h' : c = d ∧ startsWithList (replaceAll m repl cs) ws = true := by
              simpa [startsWithList] using h
            have hws : ∀ j, j < ws.length →
                startsWithList (ws.drop j) (repl.take (ws.length - j)) = false := by
              intro j hj
              have hh := hw (j + 1) (by simp; omega)
              simpa [List.drop_succ_cons, Nat.succ_sub_succ] using hh
            have hcs := ih cs ws (by simp at hs; omega) hws h'.2
            simp [startsWithList, h'.1, hcs]
          | succ l' =>
            rw [replaceAll_cons_pos m repl c cs l' hm] at h
            have hcontr := startsWith_append_swap repl _ _ h
            have hfalse := hw 0 (by simp)
            rw [List.drop_zero, Nat.sub_zero] at hfalse
            rw [hfalse] at hcontr
            exact absurd hcontr (by simp)
        | none =>
          rw [replaceAll_cons_none m repl c cs hm] at h
          have h' : c = d ∧ startsWithList (replaceAll m repl cs) ws = true := by
            simpa [startsWithList] using h
          have hws : ∀ j, j < ws.length →
              startsWithList (ws.drop j) (repl.take (ws.length - j)) = false := by
            intro j hj
            have hh := hw (j + 1) (by simp; omega)
            simpa [List.drop_succ_cons, Nat.succ_sub_succ] using hh
          have hcs := ih cs ws (by simp at hs; omega) hws h'.2
          simp [startsWithList, h'.1, hcs]

/-- No suffix of the replacement URL, followed by anything, can begin a
URL-pattern match. -/
lemma junction_no_url (i : Nat) (hi : i < 21) (X : List Char) :
    matchUrl ((replUrl.drop i) ++ X) = none := by
  unfold matchUrl
  have hsw : ¬ (startsWithList ((replUrl.drop i) ++ X) urlLit1 = true) := by
    intro hcon
    have hleft := startsWithList_append_left _ X _ hcon
    have hlen : (replUrl.drop i).length = 21 - i := by
      simp [show replUrl.length = 21 from rfl]
    rw [hlen] at hleft
    have hdec : ∀ j, j < 21 →
        startsWithList (replUrl.drop j) (urlLit1.take (21 - j)) = false := by decide
    rw [hdec i hi] at hleft
    exact absurd hleft (by simp)
  rw [if_neg hsw]

/-- Inside the match text `ttps://q.` ++ class run ++ `.amazonaws.com`,
no position can align with the replacement `http://localhost:9980`:
every alignment mismatches on its first character or, within the class
run, on the colon at offset 4 of the replacement. -/
lemma w2_incompat (run : List Char) (hcls : ∀ ch ∈ run, isClassChar ch = true) :
    ∀ j, j < ("ttps://q.".toList ++ (run ++ urlLit2)).length →
      startsWithList (("ttps://q.".toList ++ (run ++ urlLit2)).drop j)
        (replUrl.take (("ttps://q.".toList ++ (run ++ urlLit2)).length - j)) = false := by
  intro j hj
  have hlen : ("ttps://q.".toList ++ (run ++ urlLit2)).length = 23 + run.length := by
    rw [List.length_append, List.length_append,
      show ("ttps://q.".toList).length = 9 from rfl, show urlLit2.length = 14 from rfl]
    omega
  cases hval : startsWithList (("ttps://q.".toList ++ (run ++ urlLit2)).drop j)
      (replUrl.take (("ttps://q.".toList ++ (run ++ urlLit2)).length - j)) with
  | false => rfl
  | true =>
    exfalso
    rw [hlen] at hj
    have ht9 : ("ttps://q.".toList).length = 9 := rfl
    have hr21 : replUrl.length = 21 := rfl
    rcases Nat.lt_or_ge j 9 with hj9 | hj9
    · have h0 := startsWithList_getElem _ _ hval 0
        (by rw [List.length_take, hlen, hr21]; omega)
      rw [List.getElem?_drop, List.getElem?_take_of_lt (by rw [hlen]; omega),
        show replUrl[0]? = some 'h' from by decide] at h0
      rw [show j + 0 = j from rfl] at h0
      rw [List.getElem?_append_left (by rw [ht9]; omega)] at h0
      have hdec9 : ∀ u, u < 9 → ("ttps://q.".toList)[u]? ≠ some 'h' := by decide
      exact hdec9 j hj9 h0
    · rcases Nat.lt_or_ge j (9 + run.length) with hjr | hjr
      · have h4 := startsWithList_getElem _ _ hval 4
          (by rw [List.length_take, hlen, hr21]; omega)
        rw [List.getElem?_drop, List.getElem?_take_of_lt (by rw [hlen]; omega),
          show replUrl[4]? = some ':' from by decide] at h4
        rw [List.getElem?_append_right (by rw [ht9]; omega), ht9] at h4
        rcases Nat.lt_or_ge (j + 4 - 9) run.length with hin | hin
        · rw [List.getElem?_append_left hin] at h4
          have hmem : (':' : Char) ∈ run := List.getElem?_mem h4
          have hcc := hcls ':' hmem
          exact absurd hcc (by decide)
        · rw [List.getElem?_append_right hin] at h4
          have hdecc : ∀ u, u < 14 → urlLit2[u]? ≠ some ':' := by decide
          exact hdecc _ (by omega) h4
      · have h0 := startsWithList_getElem _ _ hval 0
          (by rw [List.length_take, hlen, hr21]; omega)
        rw [List.getElem?_drop, List.getElem?_take_of_lt (by rw [hlen]; omega),
          show replUrl[0]? = some 'h' from by decide] at h0
        rw [show j + 0 = j from rfl] at h0
        rw [List.getElem?_append_right (by rw [ht9]; omega), ht9] at h0
        rw [List.getElem?_append_right (by omega)] at h0
        have hdec14 : ∀ u, u < 14 → urlLit2[u]? ≠ some 'h' := by decide
        exact hdec14 _ (by omega) h0

/-- After the global URL replacement no position of the result matches
the URL pattern. -/
lemma replaceAll_url_clean : ∀ n (s : List Char), s.length ≤ n →
    ∀ i, matchUrl ((replaceAll matchUrl replUrl s).drop i) = none := by
  intro n
  induction n with
  | zero =>
    intro s hs i
    have hnil : s = [] := List.eq_nil_of_length_eq_zero (by omega)
    subst hnil
    rw [replaceAll_nil, List.drop_nil]
    exact matchUrl_nil
  | succ n ih =>
    intro s hs i
    cases s with
    | nil =>
      rw [replaceAll_nil, List.drop_nil]
      exact matchUrl_nil
    | cons c cs =>
      cases hm : matchUrl (c :: cs) with
      | some l =>
        have hl1 : 1 ≤ l := matchUrl_pos _ _ hm
        obtain ⟨l', rfl⟩ : ∃ l', l = l' + 1 := ⟨l - 1, by omega⟩
        rw [replaceAll_cons_pos matchUrl replUrl c cs l' hm]
        rcases Nat.lt_or_ge i 21 with hi | hi
        · have h21 : i - replUrl.length = 0 := by
            rw [show replUrl.length = 21 from rfl]
            omega
          rw [List.drop_append_eq_append_drop, h21, List.drop_zero]
          exact junction_no_url i hi _
        · obtain ⟨k, rfl⟩ : ∃ k, i = replUrl.length + k :=
            ⟨i - 21, by rw [show replUrl.length = 21 from rfl]; omega⟩
          rw [List.drop_append]
          exact ih (cs.drop l') (by simp at hs ⊢; omega) k
      | none =>
        rw [replaceAll_cons_none matchUrl replUrl c cs hm]
        cases i with
        | succ i =>
          rw [List.drop_succ_cons]
          exact ih cs (by simp at hs; omega) i
        | zero =>
          rw [List.drop_zero]
          cases hms : matchUrl (c :: replaceAll matchUrl replUrl cs) with
          | none => rfl
          | some l2 =>
            exfalso
            obtain ⟨run, hne, hcls, hl2, hstruct⟩ := matchUrl_structure _ _ hms
            have hUrl : urlLit1 = 'h' :: "ttps://q.".toList := rfl
            rw [hUrl, List.cons_append] at hstruct
            injection hstruct with hc htail
            have hsw : startsWithList (replaceAll matchUrl replUrl cs)
                ("ttps://q.".toList ++ (run ++ urlLit2)) = true := by
              rw [startsWithList_iff_take, htail]
              rw [show "ttps://q.".toList ++ (run ++ (urlLit2 ++
                  (c :: replaceAll matchUrl replUrl cs).drop l2)) =
                ("ttps://q.".toList ++ (run ++ urlLit2)) ++
                  (c :: replaceAll matchUrl replUrl cs).drop l2 from by
                simp [List.append_assoc]]
              exact List.take_left _ _
            have hforced := replaceAll_forced matchUrl replUrl cs.length cs
              ("ttps://q.".toList ++ (run ++ urlLit2)) le_rfl (w2_incompat run hcls) hsw
            rw [startsWithList_iff_take] at hforced
            have hcs2 : cs = ("ttps://q.".toList ++ (run ++ urlLit2)) ++
                cs.drop (("ttps://q.".toList ++ (run ++ urlLit2)).length) := by
              conv_lhs => rw [← List.take_append_drop
                (("ttps://q.".toList ++ (run ++ urlLit2)).length) cs]
              rw [hforced]
            have hfull : c :: cs = urlLit1 ++ (run ++ (urlLit2 ++
                cs.drop (("ttps://q.".toList ++ (run ++ urlLit2)).length))) := by
              rw [hUrl, List.cons_append, hc]
              congr 1
              conv_lhs => rw [hcs2]
              simp [List.append_assoc]
            have hmm := matchUrl_of_parts run
              (cs.drop (("ttps://q.".toList ++ (run ++ urlLit2)).length)) hne hcls
            rw [← hfull, hm] at hmm
            exact absurd hmm (by simp)

/-- The empty input never matches the endpoint pattern. -/
lemma matchEndpoint_nil : matchEndpoint [] = none := by decide

/-- An endpoint match consumes at least one character. -/
lemma matchEndpoint_pos (xs : List Char) (l : Nat) (h : matchEndpoint xs = some l) :
    1 ≤ l := by
  unfold matchEndpoint at h
  split at h
  · split at h
    · split at h
      · split at h
        · injection h with hh
          omega
        · exact absurd h (by simp)
      · exact absurd h (by simp)
    · exact absurd h (by simp)
  · exact absurd h (by simp)

/-- On URL-free text, the endpoint pattern cannot match anywhere
either (an endpoint match embeds a URL match). -/
lemma matchEndpoint_none_of_urlfree (t : List Char)
    (hurl : ∀ i, matchUrl (t.drop i) = none) (i : Nat) :
    matchEndpoint (t.drop i) = none := by
  unfold matchEndpoint
  split
  · split
    · next rest2 heq =>
      have h1 : rest2 = t.drop (i +
          (9 + (((t.drop i).drop 9).takeWhile isJsWsChar).length + 1)) := by
        have h2 : ((t.drop i).drop
            (9 + (((t.drop i).drop 9).takeWhile isJsWsChar).length)).drop 1 = rest2 := by
          rw [heq]
          rfl
        rw [List.drop_drop, List.drop_drop] at h2
        rw [← h2]
      rw [h1, hurl]
    · rfl
  · rfl

/-- When the matcher strikes somewhere, the replacement text occurs in
the output of `replaceAll`. -/
lemma replaceAll_contains (m : List Char → Option Nat) (repl : List Char)
    (hnil : m [] = none) (hpos : ∀ xs l, m xs = some l → 1 ≤ l) :
    ∀ s, hasMatchL m s = true → ∃ a b, replaceAll m repl s = a ++ repl ++ b := by
  intro s
  induction s with
  | nil =>
    intro h
    simp [hasMatchL, hnil] at h
  | cons c cs ih =>
    intro h
    cases hm : m (c :: cs) with
    | some l =>
      obtain ⟨l', rfl⟩ : ∃ l', l = l' + 1 := ⟨l - 1, by have := hpos _ _ hm; omega⟩
      rw [replaceAll_cons_pos m repl c cs l' hm]
      exact ⟨[], replaceAll m repl (cs.drop l'), by simp⟩
    | none =>
      rw [replaceAll_cons_none m repl c cs hm]
      have h' : hasMatchL m cs = true := by
        simpa [hasMatchL, hm] using h
      obtain ⟨a, b, hab⟩ := ih h'
      exact ⟨c :: a, b, by simp [hab]⟩

/-- The second pass leaves no URL-pattern match at any position. -/
lemma patchPass2_url_free (c : List Char) (i : Nat) :
    matchUrl ((patchPass2 c).drop i) = none := by
  unfold patchPass2
  by_cases h : hasMatchL matchUrl c = true
  · rw [if_pos h]
    exact replaceAll_url_clean c.length c le_rfl i
  · rw [if_neg h]
    have hf : hasMatchL matchUrl c = false := by simpa using h
    exact (hasMatchL_false_iff matchUrl c).1 hf i

/-- The rewritten content of `applyPatchPatterns` is URL-free. -/
lemma applyPatch_url_free (c : List Char) (i : Nat) :
    matchUrl (((applyPatchPatterns c).1).drop i) = none :=
  patchPass2_url_free (patchPass1 c) i

/-- The rewritten content of `applyPatchPatterns` is endpoint-free. -/
lemma applyPatch_ep_free (c : List Char) (i : Nat) :
    matchEndpoint (((applyPatchPatterns c).1).drop i) = none :=
  matchEndpoint_none_of_urlfree _ (fun k => applyPatch_url_free c k) i

/-- A second run of the pattern loop matches nothing. -/
lemma applyPatch_noMatch (c : List Char) :
    (applyPatchPatterns (applyPatchPatterns c).1).2 = false := by
  have hep : hasMatchL matchEndpoint ((applyPatchPatterns c).1) = false :=
    (hasMatchL_false_iff _ _).2 (applyPatch_ep_free c)
  have hurl : hasMatchL matchUrl ((applyPatchPatterns c).1) = false :=
    (hasMatchL_false_iff _ _).2 (applyPatch_url_free c)
  have hpass1 : patchPass1 ((applyPatchPatterns c).1) = (applyPatchPatterns c).1 := by
    unfold patchPass1
    simp [hep]
  show (hasMatchL matchEndpoint ((applyPatchPatterns c).1) ||
    hasMatchL matchUrl (patchPass1 ((applyPatchPatterns c).1))) = false
  rw [hep, hpass1, hurl]
  rfl

/-- A run of the pattern loop on content with a URL match reports a
match. -/
lemma applyPatch_matched (c : List Char) (h : hasMatchL matchUrl c = true) :
    (applyPatchPatterns c).2 = true := by
  show (hasMatchL matchEndpoint c || hasMatchL matchUrl (patchPass1 c)) = true
  by_cases h1 : hasMatchL matchEndpoint c = true
  · rw [h1]
    rfl
  · have hf : hasMatchL matchEndpoint c = false := by simpa using h1
    rw [hf]
    unfold patchPass1
    simp [hf, h]

/-- The rewritten content of a matching run contains the bridge's local
endpoint string. -/
lemma applyPatch_contains_loc (c : List Char) (h : hasMatchL matchUrl c = true) :
    containsList (applyPatchPatterns c).1 "localhost:9980".toList = true := by
  show containsList (patchPass2 (patchPass1 c)) "localhost:9980".toList = true
  by_cases h2 : hasMatchL matchUrl (patchPass1 c) = true
  · unfold patchPass2
    rw [if_pos h2]
    obtain ⟨a, b, hab⟩ := replaceAll_contains matchUrl replUrl matchUrl_nil
      (fun xs l hl => matchUrl_pos xs l hl) (patchPass1 c) h2
    rw [hab, show a ++ replUrl ++ b =
        (a ++ "http://".toList) ++ "localhost:9980".toList ++ b from by
      rw [show replUrl = "http://".toList ++ "localhost:9980".toList from by decide]
      simp [List.append_assoc]]
    exact containsList_of_parts _ _ _
  · unfold patchPass2
    rw [if_neg h2]
    by_cases h1 : hasMatchL matchEndpoint c = true
    · unfold patchPass1
      rw [if_pos h1]
      obtain ⟨a, b, hab⟩ := replaceAll_contains matchEndpoint replEp matchEndpoint_nil
        (fun xs l hl => matchEndpoint_pos xs l hl) c h1
      rw [hab, show a ++ replEp ++ b =
          (a ++ "endpoint: \"http://".toList) ++ "localhost:9980".toList ++
            ("\"".toList ++ b) from by
        rw [show replEp = "endpoint: \"http://".toList ++
          ("localhost:9980".toList ++ "\"".toList) from by decide]
        simp [List.append_assoc]]
      exact containsList_of_parts _ _ _
    · exfalso
      have hid : patchPass1 c = c := by
        unfold patchPass1
        rw [if_neg h1]
      rw [hid] at h2
      exact h2 h

/-- Content containing the fixed us-east-1 endpoint string has a URL
match. -/
lemma hasUrl_of_contains_usEast (s : List Char)
    (h : containsList s "https://q.us-east-1.amazonaws.com".toList = true) :
    hasMatchL matchUrl s = true := by
  obtain ⟨a, b, rfl⟩ := exists_of_containsList _ _ h
  apply hasMatchL_of_drop matchUrl _ a.length
  have hd : (a ++ "https://q.us-east-1.amazonaws.com".toList ++ b).drop a.length =
      "https://q.us-east-1.amazonaws.com".toList ++ b := by
    rw [List.append_assoc, List.drop_left]
  rw [hd, show "https://q.us-east-1.amazonaws.com".toList ++ b =
      urlLit1 ++ ("us-east-1".toList ++ (urlLit2 ++ b)) from by
    rw [show ("https://q.us-east-1.amazonaws.com".toList : List Char) =
      urlLit1 ++ ("us-east-1".toList ++ urlLit2) from by decide]
    simp [List.append_assoc]]
  rw [matchUrl_of_parts "us-east-1".toList b (by decide) (by decide)]
  rfl

/-- The rewritten content of the pattern loop never contains the fixed
us-east-1 endpoint string. -/
lemma applyPatch_no_usEast (c : List Char) :
    containsList (applyPatchPatterns c).1
      "https://q.us-east-1.amazonaws.com".toList = false := by
  cases hval : containsList (applyPatchPatterns c).1
      "https://q.us-east-1.amazonaws.com".toList with
  | false => rfl
  | true =>
    exfalso
    have h1 := hasUrl_of_contains_usEast _ hval
    have h2 : hasMatchL matchUrl ((applyPatchPatterns c).1) = false :=
      (hasMatchL_false_iff _ _).2 (applyPatch_url_free c)
    rw [h1] at h2
    exact absurd h2 (by simp)

/-- C10: `restoreKiro` modifies the live extension file only when it
succeeds: on every failure path (extension not locatable, no `.backup`
sibling, backup unreadable) it returns a structured failure with an
error message and leaves the filesystem state — in particular the live
extension content — unchanged. -/
theorem restoreKiro_failure_preserves (σ : KiroFS)
    (h : (restoreKiro σ).1.success = false) :
    (restoreKiro σ).2 = σ ∧ (restoreKiro σ).1.error.isSome = true := by
  unfold restoreKiro at h ⊢
  cases hl : σ.located with
  | false => simp [hl]
  | true =>
    cases hb : σ.backup with
    | none => simp [hl, hb]
    | some b =>
      cases hbe : σ.backupReadErr with
      | true => simp [hl, hb, hbe]
      | false =>
        rw [hl, hb, hbe] at h
        simp at h

/-- Witness for C10 at a state with no located extension. -/
theorem restoreKiro_failure_preserves_witness :
    (restoreKiro ⟨false, none, none, false, false⟩).1.success = false ∧
    ((restoreKiro ⟨false, none, none, false, false⟩).2 =
        (⟨false, none, none, false, false⟩ : KiroFS) ∧
      (restoreKiro ⟨false, none, none, false, false⟩).1.error.isSome = true) :=
  ⟨rfl, restoreKiro_failure_preserves ⟨false, none, none, false, false⟩ rfl⟩

/-- C6: on a located extension file whose content matches the upstream
endpoint pattern and that has no pre-existing backup, `patchKiro`
followed by `restoreKiro` restores the live extension file to exactly
its pre-patch content. -/
theorem patch_restore_roundtrip (c : List Char) (hpat : hasMatchL matchUrl c = true) :
    (restoreKiro (patchKiro ⟨true, some c, none, false, false⟩).2).2.ext = some c ∧
    (restoreKiro (patchKiro ⟨true, some c, none, false, false⟩).2).1.success = true := by
  have hp2 := applyPatch_matched c hpat
  have hstate : (patchKiro ⟨true, some c, none, false, false⟩).2 =
      ⟨true, some (applyPatchPatterns c).1, some c, false, false⟩ := by
    simp [patchKiro, validExtensionPath, hp2]
  rw [hstate]
  exact ⟨rfl, rfl⟩

/-- Witness for C6 at a concrete patchable content. -/
theorem patch_restore_roundtrip_witness :
    hasMatchL matchUrl
        "x endpoint: \"https://q.us-east-1.amazonaws.com\" y".toList = true ∧
    ((restoreKiro (patchKiro ⟨true,
        some "x endpoint: \"https://q.us-east-1.amazonaws.com\" y".toList,
        none, false, false⟩).2).2.ext =
      some "x endpoint: \"https://q.us-east-1.amazonaws.com\" y".toList ∧
    (restoreKiro (patchKiro ⟨true,
        some "x endpoint: \"https://q.us-east-1.amazonaws.com\" y".toList,
        none, false, false⟩).2).1.success = true) :=
  ⟨by decide, patch_restore_roundtrip _ (by decide)⟩

/-- C7: starting from a located, unpatched (pattern-bearing) extension
file with no backup, a second `patchKiro` call succeeds as a no-op: the
live content after the second call equals the content after the first,
and the backup — created by the first call with the original pre-patch
content — is not overwritten. -/
theorem patchKiro_idempotent (c : List Char) (hpat : hasMatchL matchUrl c = true) :
    (patchKiro (patchKiro ⟨true, some c, none, false, false⟩).2).2.ext =
      (patchKiro ⟨true, some c, none, false, false⟩).2.ext ∧
    (patchKiro (patchKiro ⟨true, some c, none, false, false⟩).2).1.success = true ∧
    (patchKiro (patchKiro ⟨true, some c, none, false, false⟩).2).2.backup =
      (patchKiro ⟨true, some c, none, false, false⟩).2.backup ∧
    (patchKiro ⟨true, some c, none, false, false⟩).2.backup = some c := by
  have hp2 := applyPatch_matched c hpat
  have hstate : (patchKiro ⟨true, some c, none, false, false⟩).2 =
      ⟨true, some (applyPatchPatterns c).1, some c, false, false⟩ := by
    simp [patchKiro, validExtensionPath, hp2]
  rw [hstate]
  have hnom := applyPatch_noMatch c
  have hpatched : isKiroPatchedContent (applyPatchPatterns c).1 = true := by
    unfold isKiroPatchedContent
    rw [applyPatch_contains_loc c hpat, applyPatch_no_usEast c]
    rfl
  have hsecond : patchKiro ⟨true, some (applyPatchPatterns c).1, some c, false, false⟩ =
      (⟨true, none⟩, ⟨true, some (applyPatchPatterns c).1, some c, false, false⟩) := by
    simp [patchKiro, validExtensionPath, isKiroPatched, hnom, hpatched]
  rw [hsecond]
  exact ⟨rfl, rfl, rfl, rfl⟩

/-- Witness for C7 at a concrete patchable content. -/
theorem patchKiro_idempotent_witness :
    hasMatchL matchUrl "pre https://q.eu-west-1.amazonaws.com post".toList = true ∧
    ((patchKiro (patchKiro ⟨true,
        some "pre https://q.eu-west-1.amazonaws.com post".toList,
        none, false, false⟩).2).2.ext =
      (patchKiro ⟨true, some "pre https://q.eu-west-1.amazonaws.com post".toList,
        none, false, false⟩).2.ext ∧
    (patchKiro (patchKiro ⟨true,
        some "pre https://q.eu-west-1.amazonaws.com post".toList,
        none, false, false⟩).2).1.success = true ∧
    (patchKiro (patchKiro ⟨true,
        some "pre https://q.eu-west-1.amazonaws.com post".toList,
        none, false, false⟩).2).2.backup =
      (patchKiro ⟨true, some "pre https://q.eu-west-1.amazonaws.com post".toList,
        none, false, false⟩).2.backup ∧
    (patchKiro ⟨true, some "pre https://q.eu-west-1.amazonaws.com post".toList,
        none, false, false⟩).2.backup =
      some "pre https://q.eu-west-1.amazonaws.com post".toList) :=
  ⟨by decide, patchKiro_idempotent _ (by decide)⟩

/-- C8 counterexample: a content containing the bridge's local endpoint
string and a non-us-east-1 upstream URL — which the any-region pattern
rewritten by `patchKiro` does match — is nevertheless reported as
patched, refuting the claim that `is_patched` tests for the any-region
pattern. -/
theorem isKiroPatched_usEast_counterexample :
    isKiroPatchedContent
        "localhost:9980 https://q.eu-west-1.amazonaws.com".toList = true ∧
    hasMatchL matchUrl
        "localhost:9980 https://q.eu-west-1.amazonaws.com".toList = true := by
  constructor
  · decide
  · decide

/-- C8 (amended): `is_patched` is true iff the file content contains the
bridge's local endpoint string `localhost:9980` and does not contain the
fixed single-region string `https://q.us-east-1.amazonaws.com` (not the
any-region pattern that `patchKiro` rewrites). -/
theorem isKiroPatchedContent_iff (c : List Char) :
    isKiroPatchedContent c = true ↔
      ((∃ a b, c = a ++ "localhost:9980".toList ++ b) ∧
        ¬ ∃ a b, c = a ++ "https://q.us-east-1.amazonaws.com".toList ++ b) := by
  unfold isKiroPatchedContent
  rw [Bool.and_eq_true, Bool.not_eq_true']
  constructor
  · rintro ⟨h1, h2⟩
    refine ⟨exists_of_containsList _ _ h1, ?_⟩
    rintro ⟨a, b, hab⟩
    have := containsList_of_parts a "https://q.us-east-1.amazonaws.com".toList b
    rw [← hab] at this
    rw [this] at h2
    exact absurd h2 (by simp)
  · rintro ⟨⟨a, b, hab⟩, h2⟩
    constructor
    · rw [hab]
      exact containsList_of_parts _ _ _
    · cases hval : containsList c "https://q.us-east-1.amazonaws.com".toList with
      | false => rfl
      | true => exact absurd (exists_of_containsList _ _ hval) h2
